import Mathlib

/-!
Verification of the Cooklang parser (`src/pycooklang/parser.py`).

The Python source is shallowly embedded: every definition below mirrors a
function, method or regular expression of `parser.py`.  Strings are modelled
as `String` / `List Char`; Python's dynamic `int | float | str` values are
modelled by the sum type `PyNum` (floats as exact rationals: all float
values produced by the parser come from exact decimal or fraction parses);
exceptions are modelled with `Except`.  Character classes model the ASCII
part of Python's `\w` / `\s`.
-/

/-- ASCII model of Python's regex class `\s` and of the default
whitespace set of `str.strip()`: space, tab, newline, carriage return,
vertical tab and form feed. -/
def isSpaceChar (c : Char) : Bool :=
  c = ' ' || c = '\t' || c = '\n' || c = '\r' || c = '\x0b' || c = '\x0c'

/-- ASCII model of Python's regex class `\w`: letters, digits, underscore. -/
def isWordChar (c : Char) : Bool :=
  c.isAlphanum || c = '_'

/-- Python `str.strip()` on a character list: drop whitespace from both ends. -/
def pyStripList (l : List Char) : List Char :=
  ((l.dropWhile isSpaceChar).reverse.dropWhile isSpaceChar).reverse

/-- Python `str.strip()`. -/
def pyStrip (s : String) : String :=
  String.mk (pyStripList s.data)

/-- Fuel-indexed worker for `pySplit`; the fuel is at least the input
length plus one, so the exhaustion branch is never taken for a nonempty
separator. -/
def splitOnListAux (sep : List Char) : Nat → List Char → List (List Char)
  | 0, l => [l]
  | _ + 1, [] => [[]]
  | fuel + 1, c :: rest =>
      if sep.isPrefixOf (c :: rest) then
        [] :: splitOnListAux sep fuel ((c :: rest).drop sep.length)
      else
        match splitOnListAux sep fuel rest with
        | h :: t => (c :: h) :: t
        | [] => [[c]]

/-- Python `s.split(sep)` for a nonempty separator: fragments between
non-overlapping occurrences, scanned left to right (empty fragments
kept). -/
def pySplit (s : String) (sep : String) : List String :=
  (splitOnListAux sep.data (s.data.length + 1) s.data).map String.mk

/-- Python slice `text[a:b]` on a character list (with Python's clamping
behaviour for non-negative indices). -/
def strSub (cs : List Char) (a b : Nat) : String :=
  String.mk ((cs.drop a).take (b - a))

/-- Fuel-indexed Euclid worker for `pyGcd`. -/
def gcdFuel : Nat → Nat → Nat → Nat
  | 0, _, b => b
  | fuel + 1, a, b => if a = 0 then b else gcdFuel fuel (b % a) a

/-- Greatest common divisor via kernel-friendly structural recursion. -/
def pyGcd (a b : Nat) : Nat :=
  gcdFuel (a + b + 1) a b

/-- An exact rational in lowest terms with positive denominator, modelling
a Python float.  Every float the parser produces comes from `float(...)`
on a short decimal literal or from an exact fraction division, so this
exact representation is faithful on all reachable values. -/
structure PyRat where
  num : Int
  den : Nat
deriving DecidableEq, Repr

/-- Normalised fraction constructor (callers never pass `d = 0`). -/
def mkPyRat (n : Int) (d : Nat) : PyRat :=
  if d = 0 then { num := 0, den := 0 }
  else
    let g := pyGcd n.natAbs d
    { num := n / (g : Int), den := d / g }

/-- Exact division of two model floats, used by the fraction branch of
`_parse_number` (the caller excludes a zero divisor). -/
def pyRatDiv (a b : PyRat) : PyRat :=
  mkPyRat (a.num * (b.den : Int) * (if b.num < 0 then -1 else 1))
    (a.den * b.num.natAbs)

/-- A dynamically-typed Python numeral-or-string value, as stored in
`Ingredient.quantity`, `Timer.duration` and `Cookware.quantity`
(`Union[int, float, str]`). -/
inductive PyNum where
  | int (n : Int)
  | float (q : PyRat)
  | str (s : String)
deriving DecidableEq, Repr

/-- Python `==` on numbers identifies `int` and `float` of equal value
(`0 == 0.0` is `True`) while numbers never equal strings.  This lift of a
value to a normalised fraction (ints get denominator 1) or a string
realises exactly that equivalence: two `PyNum`s are `==`-equal in Python
iff their lifts are equal (model floats are always in lowest terms). -/
def pyNumLift : PyNum → (Int × Nat) ⊕ String
  | .int n => Sum.inl (n, 1)
  | .float q => Sum.inl (q.num, q.den)
  | .str s => Sum.inr s

/-- Python truthiness of a `PyNum` (`0`, `0.0` and `""` are falsy). -/
def pyNumTruthy : PyNum → Bool
  | .int n => n != 0
  | .float q => q.num != 0
  | .str s => s != ""

/-- Python truthiness of an optional value (`None` is falsy). -/
def pyOptTruthy (q : Option PyNum) : Bool :=
  match q with
  | none => false
  | some v => pyNumTruthy v

/-- Python truthiness of an optional string (`None` and `""` are falsy). -/
def pyOptStrTruthy (s : Option String) : Bool :=
  match s with
  | none => false
  | some v => v != ""

/-- Digits-to-nat helper for `pyInt` and `pyFloat`. -/
def digitsVal (l : List Char) : Nat :=
  l.foldl (fun acc c => acc * 10 + (c.toNat - 48)) 0

/-- Model of Python `int(value)` restricted to the inputs reachable from
the parser: optional surrounding whitespace, an optional sign, then one or
more decimal digits.  (Python additionally accepts underscores between
digits, which cannot occur in a captured amount string.)  Returns `none`
where Python raises `ValueError`. -/
def pyInt (value : String) : Option Int :=
  let l := pyStripList value.data
  let (sign, digits) :=
    match l with
    | '-' :: rest => ((-1 : Int), rest)
    | '+' :: rest => ((1 : Int), rest)
    | _ => ((1 : Int), l)
  if digits = [] || !digits.all Char.isDigit then none
  else some (sign * (digitsVal digits : Int))

/-- Model of Python `float(value)` restricted to the inputs reachable from
the parser: optional surrounding whitespace, an optional sign, then decimal
digits with at most one point and at least one digit; the result is the
exact rational value.  (Python additionally accepts exponents, `inf` and
`nan`, which cannot occur in a captured amount string.)  Returns `none`
where Python raises `ValueError`. -/
def pyFloat (value : String) : Option PyRat :=
  let l := pyStripList value.data
  let (sign, body) :=
    match l with
    | '-' :: rest => ((-1 : Int), rest)
    | '+' :: rest => ((1 : Int), rest)
    | _ => ((1 : Int), l)
  let intPart := body.takeWhile Char.isDigit
  let rest := body.drop intPart.length
  match rest with
  | [] => if intPart = [] then none else some (mkPyRat (sign * (digitsVal intPart : Int)) 1)
  | '.' :: frac =>
      if !frac.all Char.isDigit then none
      else if intPart = [] && frac = [] then none
      else
        let num : Int := sign * ((digitsVal intPart) * 10 ^ frac.length + digitsVal frac : Nat)
        some (mkPyRat num (10 ^ frac.length))
  | _ => none

/-- Python `sep in value` for a single-character separator. -/
def strContainsChar (value : String) (c : Char) : Bool :=
  value.data.contains c

/-- Python `value.split(c, 1)`: the parts before and after the first
occurrence of `c` (the caller guarantees `c` occurs). -/
def splitOnFirst (value : String) (c : Char) : String × String :=
  (String.mk (value.data.takeWhile (fun x => x ≠ c)),
   String.mk ((value.data.dropWhile (fun x => x ≠ c)).drop 1))

/-- Model of `_parse_number` (parser.py lines 1016-1045).  Tries a fraction
parse when `fractions` is set and a `/` is present, otherwise an integer
parse when no `.` is present, otherwise a float parse; any failure
(including `ZeroDivisionError` in the fraction branch) is caught by the
bare `except` and the original string is returned verbatim. -/
def _parse_number (value : String) (fractions : Bool) : PyNum :=
  if fractions && strContainsChar value '/' then
    let p := splitOnFirst value '/'
    match pyFloat p.1, pyFloat p.2 with
    | some a, some b => if b.num = 0 then .str value else .float (pyRatDiv a b)
    | _, _ => .str value
  else if strContainsChar value '.' then
    match pyFloat value with
    | some q => .float q
    | none => .str value
  else
    match pyInt value with
    | some n => .int n
    | none => .str value

/-- Zero-padded decimal rendering of `m` to `k` digits, for `floatStr`. -/
def decimalDigits (k : Nat) (m : Nat) : String :=
  let ds := toString m
  String.mk (List.replicate (k - ds.length) '0') ++ ds

/-- Python `str()` / `repr()` of a float, for the exact rationals the
parser can produce: the shortest terminating decimal expansion with at
least one fractional digit (`str(1.0) = "1.0"`, `str(0.5) = "0.5"`).
Rationals without a terminating expansion cannot arise from `float(...)`
parses; they are rendered as plain fractions. -/
def floatStr (q : PyRat) : String :=
  match (List.range 41).find? (fun k => 10 ^ k % q.den = 0) with
  | some k =>
      let k := max k 1
      let scaled : Nat := q.num.natAbs * (10 ^ k / q.den)
      (if q.num < 0 then "-" else "") ++
        toString (scaled / 10 ^ k) ++ "." ++ decimalDigits k (scaled % 10 ^ k)
  | none => toString q.num ++ "/" ++ toString q.den

/-- Python `str()` of a `PyNum` (`str(3) = "3"`, `str(-2) = "-2"`,
`str(1.5) = "1.5"`, strings unchanged). -/
def pyNumStr : PyNum → String
  | .int n => toString n
  | .float q => floatStr q
  | .str s => s

/-- Python `str()` of an optional value: `str(None)` is `"None"`. -/
def pyOptNumStr : Option PyNum → String
  | none => "None"
  | some v => pyNumStr v

/-- Fuel-indexed worker for `pyReplace`; the fuel is at least the input
length plus one, so the exhaustion branch is never taken for a nonempty
pattern. -/
def pyReplaceAux (pat rep : List Char) : Nat → List Char → List Char
  | 0, l => l
  | _ + 1, [] => []
  | fuel + 1, c :: rest =>
      if pat ≠ [] ∧ pat.isPrefixOf (c :: rest) then
        rep ++ pyReplaceAux pat rep fuel ((c :: rest).drop pat.length)
      else c :: pyReplaceAux pat rep fuel rest

/-- Python `s.replace(pat, rep)`: replace all non-overlapping occurrences
left to right. -/
def pyReplace (s pat rep : String) : String :=
  String.mk (pyReplaceAux pat.data rep.data (s.data.length + 1) s.data)

/-- The `Ingredient` dataclass (parser.py lines 53-99). -/
structure Ingredient where
  name : String
  quantity : Option PyNum := none
  unit : Option String := none
  preparation : Option String := none
deriving DecidableEq, Repr

/-- `Ingredient.__str__` (parser.py lines 85-92). -/
def Ingredient.str (i : Ingredient) : String :=
  let result := i.name
  let result :=
    if pyOptTruthy i.quantity then
      pyStrip (pyOptNumStr i.quantity ++ " " ++ i.unit.getD "" ++ " " ++ result)
    else result
  let result :=
    if pyOptStrTruthy i.preparation then
      result ++ " (" ++ i.preparation.getD "" ++ ")"
    else result
  pyReplace result "  " " "

/-- `Ingredient.to_latex` (parser.py lines 94-99); note that an absent
quantity renders as the literal text `None`. -/
def Ingredient.to_latex (i : Ingredient) : String :=
  "\\ingredient[" ++ pyOptNumStr i.quantity ++ "]\x7b" ++ i.unit.getD "" ++
    "\x7d\x7b" ++ i.name ++ "\x7d"

/-- The `Cookware` dataclass (parser.py lines 102-129).  The parser stores
the raw captured amount string as the quantity. -/
structure Cookware where
  name : String
  quantity : Option PyNum := none
deriving DecidableEq, Repr

/-- `Cookware.__str__` (parser.py lines 126-129). -/
def Cookware.str (c : Cookware) : String :=
  if pyOptTruthy c.quantity then pyOptNumStr c.quantity ++ " " ++ c.name
  else c.name

/-- The `Timer` dataclass (parser.py lines 132-165). -/
structure Timer where
  name : Option String := none
  duration : Option PyNum := none
  unit : Option String := none
deriving DecidableEq, Repr

/-- `Timer.__str__` (parser.py lines 162-165). -/
def Timer.str (t : Timer) : String :=
  if pyOptTruthy t.duration then
    pyStrip (pyOptNumStr t.duration ++ " " ++ t.unit.getD "")
  else ""

/-- The `Comment` dataclass (parser.py lines 168-190). -/
structure Comment where
  text : String
  is_block : Bool := false
deriving DecidableEq, Repr

/-- The `Note` dataclass (parser.py lines 193-209). -/
structure Note where
  text : String
deriving DecidableEq, Repr

/-- The `Section` dataclass (parser.py lines 212-234). -/
structure Section where
  title : String
  level : Nat := 1
deriving DecidableEq, Repr

/-- The token hierarchy (parser.py lines 237-487): `TextToken`,
`IngredientToken`, `CookwareToken`, `TimerToken`, `CommentToken`,
`NoteToken`, each carrying the verbatim matched text and its span. -/
inductive Token where
  | textTok (text : String) (start_pos end_pos : Nat)
  | ingredientTok (text : String) (start_pos end_pos : Nat) (ingredient : Ingredient)
  | cookwareTok (text : String) (start_pos end_pos : Nat) (cookware : Cookware)
  | timerTok (text : String) (start_pos end_pos : Nat) (timer : Timer)
  | commentTok (text : String) (start_pos end_pos : Nat) (comment : Comment)
  | noteTok (text : String) (start_pos end_pos : Nat) (note : Note)
deriving DecidableEq, Repr

/-- The verbatim source text of a token (`Token.text`). -/
def Token.text : Token → String
  | .textTok t _ _ => t
  | .ingredientTok t _ _ _ => t
  | .cookwareTok t _ _ _ => t
  | .timerTok t _ _ _ => t
  | .commentTok t _ _ _ => t
  | .noteTok t _ _ _ => t

/-- `IngredientToken.to_markdown` (parser.py lines 314-321). -/
def ingredientTokenMarkdown (i : Ingredient) : String :=
  let result := "**" ++ i.name ++ "**"
  let result :=
    if pyOptTruthy i.quantity then
      pyStrip ("**" ++ pyOptNumStr i.quantity ++ " " ++ i.unit.getD "" ++ " " ++ i.name ++ "**")
    else result
  let result :=
    if pyOptStrTruthy i.preparation then
      result ++ " *(" ++ i.preparation.getD "" ++ ")*"
    else result
  pyReplace result "  " " "

/-- `IngredientToken.to_html` (parser.py lines 326-332). -/
def ingredientTokenHtml (i : Ingredient) : String :=
  let result := "<strong>" ++ i.name ++ "</strong>"
  let result :=
    if pyOptTruthy i.quantity then
      pyStrip ("<strong>" ++ pyOptNumStr i.quantity ++ " " ++ i.unit.getD "" ++ " " ++ i.name ++ "</strong>")
    else result
  if pyOptStrTruthy i.preparation then
    result ++ " <em>(" ++ i.preparation.getD "" ++ ")</em>"
  else result

/-- `IngredientToken.to_latex` (parser.py lines 334-340). -/
def ingredientTokenLatex (i : Ingredient) : String :=
  let text := i.name
  let text :=
    if pyOptTruthy i.quantity then
      pyStrip (text ++ " " ++ pyOptNumStr i.quantity ++ " " ++ i.unit.getD "")
    else text
  "\\textbf\x7b" ++ text ++ "\x7d"

/-- `Token.to_markdown` dispatch (parser.py lines 244-250, 314-321,
364-365, 402-403, 436-439, 477-478). -/
def Token.to_markdown : Token → String
  | .textTok t _ _ => t
  | .ingredientTok _ _ _ i => ingredientTokenMarkdown i
  | .cookwareTok _ _ _ c => "*" ++ c.name ++ "*"
  | .timerTok _ _ _ t => "**" ++ Timer.str t ++ "**"
  | .commentTok _ _ _ c =>
      if c.is_block then "<!-- " ++ c.text ++ " -->" else "*(" ++ c.text ++ ")*"
  | .noteTok _ _ _ n => "> " ++ n.text

/-- `Token.to_plain_text` dispatch (parser.py lines 252-258, 323-324,
367-368, 405-406, 441-442, 480-481). -/
def Token.to_plain_text : Token → String
  | .textTok t _ _ => t
  | .ingredientTok _ _ _ i => Ingredient.str i
  | .cookwareTok _ _ _ c => Cookware.str c
  | .timerTok _ _ _ t => Timer.str t
  | .commentTok _ _ _ _ => ""
  | .noteTok _ _ _ n => n.text

/-- `Token.to_html` dispatch (parser.py lines 260-266, 326-332, 370-373,
408-409, 444-447, 483-484). -/
def Token.to_html : Token → String
  | .textTok t _ _ => t
  | .ingredientTok _ _ _ i => ingredientTokenHtml i
  | .cookwareTok _ _ _ c =>
      if pyOptTruthy c.quantity then
        "<em>" ++ pyOptNumStr c.quantity ++ " " ++ c.name ++ "</em>"
      else "<em>" ++ c.name ++ "</em>"
  | .timerTok _ _ _ t =>
      if Timer.str t ≠ "" then "<em>" ++ Timer.str t ++ "</em>" else ""
  | .commentTok _ _ _ c =>
      if c.is_block then "<!-- " ++ c.text ++ " -->" else "<em>(" ++ c.text ++ ")</em>"
  | .noteTok _ _ _ n => "<blockquote>" ++ n.text ++ "</blockquote>"

/-- `Token.to_latex` dispatch (parser.py lines 268-274, 334-340, 375-378,
411-412, 449-453, 486-487). -/
def Token.to_latex : Token → String
  | .textTok t _ _ => t
  | .ingredientTok _ _ _ i => ingredientTokenLatex i
  | .cookwareTok _ _ _ c =>
      if pyOptTruthy c.quantity then
        "\\textit\x7b" ++ pyOptNumStr c.quantity ++ " " ++ c.name ++ "\x7d"
      else "\\textit\x7b" ++ c.name ++ "\x7d"
  | .timerTok _ _ _ t =>
      pyStrip ("\\textbf\x7b" ++ pyOptNumStr t.duration ++ " " ++ t.unit.getD "" ++ "\x7d")
  | .commentTok _ _ _ c =>
      if c.is_block then "% " ++ pyReplace c.text "\n" " "
      else "\\textit\x7b(" ++ c.text ++ ")\x7d"
  | .noteTok _ _ _ n => "\\begin\x7bquote\x7d\n" ++ n.text ++ "\n\\end\x7bquote\x7d"

/-- The `Step` dataclass (parser.py lines 490-618); `secRef` models the
`section` attribute (a keyword in Lean). -/
structure Step where
  tokens : List Token := []
  secRef : Option Section := none
deriving DecidableEq, Repr

/-- `Step.text` (parser.py lines 519-526). -/
def Step.text (s : Step) : String :=
  String.join (s.tokens.map Token.text)

/-- `Step.ingredients` (parser.py lines 528-539). -/
def Step.ingredients (s : Step) : List Ingredient :=
  s.tokens.filterMap (fun t =>
    match t with
    | .ingredientTok _ _ _ i => some i
    | _ => none)

/-- `Step.cookware` (parser.py lines 541-550). -/
def Step.cookware (s : Step) : List Cookware :=
  s.tokens.filterMap (fun t =>
    match t with
    | .cookwareTok _ _ _ c => some c
    | _ => none)

/-- `Step.timers` (parser.py lines 552-559). -/
def Step.timers (s : Step) : List Timer :=
  s.tokens.filterMap (fun t =>
    match t with
    | .timerTok _ _ _ tm => some tm
    | _ => none)

/-- `Step.comments` (parser.py lines 561-570). -/
def Step.comments (s : Step) : List Comment :=
  s.tokens.filterMap (fun t =>
    match t with
    | .commentTok _ _ _ c => some c
    | _ => none)

/-- `Step.to_markdown` (parser.py lines 572-578). -/
def Step.to_markdown (s : Step) : String :=
  String.join (s.tokens.map Token.to_markdown)

/-- `Step.to_plain_text` (parser.py lines 580-586). -/
def Step.to_plain_text (s : Step) : String :=
  String.join (s.tokens.map Token.to_plain_text)

/-- `Step.to_html` (parser.py lines 588-594). -/
def Step.to_html (s : Step) : String :=
  String.join (s.tokens.map Token.to_html)

/-- `Step.to_latex` (parser.py lines 596-609): each ingredient is hoisted
to a macro line before the step's own token renderings. -/
def Step.to_latex (s : Step) : String :=
  String.join (s.ingredients.map (fun i => Ingredient.to_latex i ++ "\n")) ++
    String.join (s.tokens.map Token.to_latex) ++ "\n\n"

/-- `Step.is_comment` (parser.py lines 611-618). -/
def Step.is_comment (s : Step) : Bool :=
  s.tokens.all (fun t =>
    match t with
    | .commentTok _ _ _ _ => true
    | _ => false)

/-- The character class `[\w\s()\\/\-]` of the `name` capture group in
`_get_matching_regex` (parser.py lines 1094-1099): word characters,
whitespace, parentheses, backslash, slash and hyphen. -/
def nameClass (c : Char) : Bool :=
  isWordChar c || isSpaceChar c || c = '(' || c = ')' || c = '\\' || c = '/' || c = '-'

/-- The character class `[\d.\/\-]` of the `amount` capture group. -/
def amountClass (c : Char) : Bool :=
  c.isDigit || c = '.' || c = '/' || c = '-'

/-- The character class `[A-Za-z]` of the `unit` capture group. -/
def unitClass (c : Char) : Bool :=
  c.isAlpha

/-- The character class `[\w\s]` of the `shorthand` capture group. -/
def shorthandClass (c : Char) : Bool :=
  isWordChar c || isSpaceChar c

/-- The named capture groups of the tagged-construct regex built by
`_get_matching_regex` (parser.py lines 1091-1105).  A group is `none`
when its alternative or optional part did not participate in the match. -/
structure BracedGroups where
  name : Option String := none
  amount : Option String := none
  unit : Option String := none
  shorthand : Option String := none
  simple : Option String := none
deriving DecidableEq, Repr

/-- Attempt of the braced alternative
`<qual>(?P<name>[\w\s()\\/\-]+){(?P<amount>[\d.\/\-]+)?%*(?P<unit>[A-Za-z]+)?}(?:\((?P<shorthand>[\w\s]+)\))?`
at the head of `s`, returning the unconsumed suffix and the groups (the
consumed length is the length difference).  All quantifiers take their
maximal run: every character class excludes the character that must follow
it, so regex backtracking can never shorten a run and maximal munch is
exact. -/
def tryBraced (qualifier : Char) (requiredName : Bool) (s : List Char) :
    Option (List Char × BracedGroups) :=
  match s with
  | [] => none
  | c :: rest =>
    if c = qualifier then
      let n := (rest.takeWhile nameClass).length
      if requiredName && n = 0 then none
      else
        match rest.drop n with
        | '{' :: r2 =>
          let a := (r2.takeWhile amountClass).length
          let r3 := r2.drop a
          let p := (r3.takeWhile (fun x => x = '%')).length
          let r4 := r3.drop p
          let u := (r4.takeWhile unitClass).length
          match r4.drop u with
          | '}' :: r5 =>
            let g : BracedGroups :=
              { name := some (String.mk (rest.take n)),
                amount := if a = 0 then none else some (String.mk (r2.take a)),
                unit := if u = 0 then none else some (String.mk (r4.take u)) }
            (match r5 with
             | '(' :: r6 =>
               let k := (r6.takeWhile shorthandClass).length
               if k = 0 then some (r5, g)
               else
                 match r6.drop k with
                 | ')' :: rr =>
                     some (rr, { g with shorthand := some (String.mk (r6.take k)) })
                 | _ => some (r5, g)
             | _ => some (r5, g))
          | _ => none
        | _ => none
    else none

/-- Attempt of the simple alternative `<qual>(?P<simple>\w+)` at the head
of `s`. -/
def trySimple (qualifier : Char) (s : List Char) : Option (List Char × BracedGroups) :=
  match s with
  | [] => none
  | c :: rest =>
    if c = qualifier then
      let w := (rest.takeWhile isWordChar).length
      if w = 0 then none
      else some (rest.drop w, { simple := some (String.mk (rest.take w)) })
    else none

/-- The full tagged-construct regex of `_get_matching_regex`: the braced
alternative is preferred, the simple alternative is tried second (and only
when `alsoSimple` is set, matching `also_simple`).  The `Bool` argument is
the at-line-start flag of the generic scanner, unused by this pattern. -/
def tryTagged (qualifier : Char) (requiredName alsoSimple : Bool) :
    Bool → List Char → Option (List Char × BracedGroups) :=
  fun _ s =>
    match tryBraced qualifier requiredName s with
    | some r => some r
    | none => if alsoSimple then trySimple qualifier s else none

/-- Attempt of the inline-comment pattern `--(.*)$` (MULTILINE) at the
head of `s`: two hyphens, then the rest of the line; returns the
unconsumed suffix and group 1. -/
def tryCommentInline : Bool → List Char → Option (List Char × String) :=
  fun _ s =>
    match s with
    | '-' :: '-' :: rest =>
        let n := (rest.takeWhile (fun c => c ≠ '\n')).length
        some (rest.drop n, String.mk (rest.take n))
    | _ => none

/-- Index of the first occurrence of `-]` in a character list. -/
def findDashBracketIdx : List Char → Option Nat
  | [] => none
  | '-' :: ']' :: _ => some 0
  | _ :: rest => (findDashBracketIdx rest).map (fun n => n + 1)

/-- Attempt of the block-comment pattern `\[-\s*(.*?)\s*-\]` (DOTALL) at
the head of `s`.  The lazy inner group makes the match end at the first
`-]`; the greedy `\s*` on both sides absorb exactly the maximal whitespace
runs at the borders of the enclosed text, so group 1 is the enclosed text
with both ends stripped. -/
def tryCommentBlock : Bool → List Char → Option (List Char × String) :=
  fun _ s =>
    match s with
    | '[' :: '-' :: rest =>
        match findDashBracketIdx rest with
        | some p => some (rest.drop (p + 2), String.mk (pyStripList (rest.take p)))
        | none => none
    | _ => none

/-- Attempt of the note pattern `^>\s*(.*)$` (MULTILINE) at the head of
`s`, which must be a line start: `>`, then maximal whitespace (which may
cross line breaks, `\s` matches newlines), then the rest of the line. -/
def tryNote : Bool → List Char → Option (List Char × String) :=
  fun lineStart s =>
    if lineStart then
      match s with
      | '>' :: rest =>
          let w := (rest.takeWhile isSpaceChar).length
          let r2 := rest.drop w
          let n := (r2.takeWhile (fun c => c ≠ '\n')).length
          some (r2.drop n, String.mk (r2.take n))
      | _ => none
    else none

/-- Whether a nonempty character list ends in a newline (used to track the
at-line-start flag across a consumed match). -/
def lastIsNewline (l : List Char) : Bool :=
  match l.getLast? with
  | some '\n' => true
  | _ => false

/-- Fuel-indexed worker for `reFinditer`: at each position try the
pattern; on a match consuming `len` characters (the length drop to the
returned suffix), record `(i, i + len, groups)` and resume after the match
(after one character for an empty match, as `re.finditer` does); otherwise
advance one character.  The fuel is at least `s.length + 1` at every call,
so the fuel-exhaustion branch is never taken. -/
def reFinditerAux (tryAt : Bool → List Char → Option (List Char × α)) :
    Nat → Bool → Nat → List Char → List (Nat × Nat × α)
  | 0, _, _, _ => []
  | _ + 1, _, _, [] => []
  | fuel + 1, ls, i, c :: rest =>
    match tryAt ls (c :: rest) with
    | some (rem, a) =>
        let len := (c :: rest).length - rem.length
        let step := max len 1
        (i, i + len, a) ::
          reFinditerAux tryAt fuel (lastIsNewline ((c :: rest).take step))
            (i + step) ((c :: rest).drop step)
    | none => reFinditerAux tryAt fuel (c = '\n') (i + 1) rest

/-- Model of `pattern.finditer(text)`: the list of non-overlapping matches
`(start, end, groups)` scanned left to right. -/
def reFinditer (tryAt : Bool → List Char → Option (List Char × α)) (cs : List Char) :
    List (Nat × Nat × α) :=
  reFinditerAux tryAt (cs.length + 1) true 0 cs

/-- `self.ingredient_pattern.finditer(text)` (parser.py lines 1108, 1198). -/
def ingredientMatches (cs : List Char) : List (Nat × Nat × BracedGroups) :=
  reFinditer (tryTagged '@' true true) cs

/-- `self.cookware_pattern.finditer(text)` (parser.py lines 1109, 1203). -/
def cookwareMatches (cs : List Char) : List (Nat × Nat × BracedGroups) :=
  reFinditer (tryTagged '#' true true) cs

/-- `self.timer_pattern.finditer(text)` (parser.py lines 1110-1112, 1208):
name not required, no simple alternative. -/
def timerMatches (cs : List Char) : List (Nat × Nat × BracedGroups) :=
  reFinditer (tryTagged '~' false false) cs

/-- `self.note_pattern.finditer(text)` (parser.py lines 1116, 1213). -/
def noteMatches (cs : List Char) : List (Nat × Nat × String) :=
  reFinditer tryNote cs

/-- `self.comment_inline_pattern.finditer(text)` (parser.py lines 1114, 1218). -/
def commentInlineMatches (cs : List Char) : List (Nat × Nat × String) :=
  reFinditer tryCommentInline cs

/-- `self.comment_block_pattern.finditer(text)` (parser.py lines 1115, 1223). -/
def commentBlockMatches (cs : List Char) : List (Nat × Nat × String) :=
  reFinditer tryCommentBlock cs

/-- `_create_ingredient_from_match` (parser.py lines 1289-1306). -/
def _create_ingredient_from_match (g : BracedGroups) : Ingredient :=
  if pyOptStrTruthy g.simple then { name := pyStrip (g.simple.getD "") }
  else
    let name := pyStrip (g.name.getD "")
    let quantity_str := if pyOptStrTruthy g.amount then g.amount else none
    let unit := if pyOptStrTruthy g.unit then g.unit else none
    let preparation := g.shorthand
    let quantity :=
      if pyOptStrTruthy quantity_str then
        some (_parse_number (quantity_str.getD "") false)
      else none
    { name := name, quantity := quantity, unit := unit, preparation := preparation }

/-- `_create_cookware_from_match` (parser.py lines 1308-1314): the raw
amount string is kept as the quantity. -/
def _create_cookware_from_match (g : BracedGroups) : Cookware :=
  if pyOptStrTruthy g.simple then { name := pyStrip (g.simple.getD "") }
  else
    { name := pyStrip (g.name.getD ""),
      quantity := if pyOptStrTruthy g.amount then some (.str (g.amount.getD "")) else none }

/-- `_create_timer_from_match` (parser.py lines 1316-1326). -/
def _create_timer_from_match (g : BracedGroups) : Timer :=
  let name := if pyOptStrTruthy g.name then some (pyStrip (g.name.getD "")) else none
  let duration_str := if pyOptStrTruthy g.amount then g.amount else none
  let unit := if pyOptStrTruthy g.unit then g.unit else none
  let duration :=
    if pyOptStrTruthy duration_str then
      some (_parse_number (duration_str.getD "") false)
    else none
  { name := name, duration := duration, unit := unit }

/-- The payload stored in an entry of `all_matches` in `_parse_step`. -/
inductive MatchData where
  | ing (i : Ingredient)
  | cook (c : Cookware)
  | tim (t : Timer)
  | note (n : Note)
  | comm (c : Comment)
deriving DecidableEq, Repr

/-- The `all_matches` list of `_parse_step` before sorting (parser.py
lines 1194-1225): each matcher contributes
`(match.start(), match.end(), payload, match.group(0))`, in the source's
collection order. -/
def collectMatches (cs : List Char) : List (Nat × Nat × MatchData × String) :=
  (ingredientMatches cs).map
      (fun m => (m.1, m.2.1, MatchData.ing (_create_ingredient_from_match m.2.2),
                 strSub cs m.1 m.2.1)) ++
  (cookwareMatches cs).map
      (fun m => (m.1, m.2.1, MatchData.cook (_create_cookware_from_match m.2.2),
                 strSub cs m.1 m.2.1)) ++
  (timerMatches cs).map
      (fun m => (m.1, m.2.1, MatchData.tim (_create_timer_from_match m.2.2),
                 strSub cs m.1 m.2.1)) ++
  (noteMatches cs).map
      (fun m => (m.1, m.2.1, MatchData.note { text := pyStrip m.2.2 },
                 strSub cs m.1 m.2.1)) ++
  (commentInlineMatches cs).map
      (fun m => (m.1, m.2.1, MatchData.comm { text := pyStrip m.2.2, is_block := false },
                 strSub cs m.1 m.2.1)) ++
  (commentBlockMatches cs).map
      (fun m => (m.1, m.2.1, MatchData.comm { text := pyStrip m.2.2, is_block := true },
                 strSub cs m.1 m.2.1))

/-- Stable insertion by start offset: the new element goes after all
earlier elements with a strictly smaller start and before any element with
an equal or larger start (elements already in the list came earlier in the
original order). -/
def insertByStart (x : Nat × Nat × MatchData × String) :
    List (Nat × Nat × MatchData × String) → List (Nat × Nat × MatchData × String)
  | [] => [x]
  | y :: ys => if y.1 < x.1 then y :: insertByStart x ys else x :: y :: ys

/-- Model of `all_matches.sort(key=lambda x: x[0])` (parser.py line 1228):
a stable sort by start offset (Python's sort is stable). -/
def sortByStart : List (Nat × Nat × MatchData × String) →
    List (Nat × Nat × MatchData × String)
  | [] => []
  | x :: xs => insertByStart x (sortByStart xs)

/-- The sorted `all_matches` list of `_parse_step`. -/
def sortedMatches (cs : List Char) : List (Nat × Nat × MatchData × String) :=
  sortByStart (collectMatches cs)

/-- The token-assembly loop of `_parse_step` (parser.py lines 1230-1287):
walk the sorted matches keeping a cursor; emit a `TextToken` for a
non-whitespace gap before each match, then the match's token, set the
cursor to the match's end; finally emit the non-whitespace trailing text.
The `else: raise ValueError` branch of the source is unreachable here
because `MatchData` is a closed sum. -/
def buildTokens (cs : List Char) : Nat → List (Nat × Nat × MatchData × String) → List Token
  | position, [] =>
      if position < cs.length then
        let remaining := strSub cs position cs.length
        if pyStrip remaining ≠ "" then
          [Token.textTok remaining position cs.length]
        else []
      else []
  | position, (s, e, d, orig) :: ms =>
      (if position < s then
         let gap := strSub cs position s
         if pyStrip gap ≠ "" then [Token.textTok gap position s] else []
       else []) ++
      ((match d with
        | .ing i => Token.ingredientTok orig s e i
        | .cook c => Token.cookwareTok orig s e c
        | .tim t => Token.timerTok orig s e t
        | .comm c => Token.commentTok orig s e c
        | .note n => Token.noteTok orig s e n) :: buildTokens cs e ms)

/-- `CooklangParser._parse_step` (parser.py lines 1189-1287). -/
def _parse_step (text : String) : Step :=
  { tokens := buildTokens text.data 0 (sortedMatches text.data), secRef := none }

/-- Whether a suffix matches the tail `\s*(=*)$` of `section_pattern`
(parser.py line 1117, pattern `^(=+)\s*(.*?)\s*(=*)$`, no MULTILINE):
whitespace then equals signs reaching the end of the string, or the same
reaching a final newline (`$` also matches just before a trailing
newline). -/
def tailOkSec (s : List Char) : Bool :=
  (s.dropWhile isSpaceChar).all (fun c => c = '=') ||
  (match s.getLast? with
   | some '\n' => (s.dropLast.dropWhile isSpaceChar).all (fun c => c = '=')
   | _ => false)

/-- Length of the lazy group `(.*?)` of `section_pattern`: the smallest
prefix (containing no newline, `.` does not match `\n`) whose remainder
matches `\s*(=*)$`. -/
def findTitleLen (s : List Char) : Option Nat :=
  if tailOkSec s then some 0
  else
    match s with
    | [] => none
    | c :: rest =>
        if c = '\n' then none
        else (findTitleLen rest).map (fun n => n + 1)

/-- `self.section_pattern.match(paragraph)` followed by the group reads of
`parse` (parser.py lines 1117, 1141-1146): on a match, the heading level
(count of leading `=`, group 1) and the stripped title (group 2).  The
leading `=+` is maximal: `=` is in no later character class, so regex
backtracking cannot shorten it. -/
def sectionMatch (p : String) : Option (Nat × String) :=
  let cs := p.data
  let k := (cs.takeWhile (fun c => c = '=')).length
  if k = 0 then none
  else
    let rest := cs.drop k
    let w := (rest.takeWhile isSpaceChar).length
    let body := rest.drop w
    match findTitleLen body with
    | some L => some (k, pyStrip (String.mk (body.take L)))
    | none => none

/-- Index of the last newline in a character list, if any. -/
def lastNewlinePos : List Char → Option Nat
  | [] => none
  | c :: rest =>
      match lastNewlinePos rest with
      | some k => some (k + 1)
      | none => if c = '\n' then some 0 else none

/-- Fuel-indexed worker modelling `re.split(r"\n\s*\n", text)`: a
separator starts at a newline and extends through the following greedy
whitespace run up to the last newline inside it (the pattern's closing
literal `\n`).  `acc` is the current fragment, reversed.  The fuel is at
least the remaining length plus one at every call, so the exhaustion
branch is never taken. -/
def reSplitBlankAux : Nat → List Char → List Char → List (List Char)
  | 0, acc, l => [acc.reverse ++ l]
  | _ + 1, acc, [] => [acc.reverse]
  | fuel + 1, acc, c :: rest =>
      if c = '\n' then
        match lastNewlinePos (rest.takeWhile isSpaceChar) with
        | some w => acc.reverse :: reSplitBlankAux fuel [] (rest.drop (w + 1))
        | none => reSplitBlankAux fuel (c :: acc) rest
      else reSplitBlankAux fuel (c :: acc) rest

/-- `CooklangParser._split_into_paragraphs` (parser.py lines 1183-1187):
split the stripped text on blank lines, strip each paragraph, drop empty
paragraphs. -/
def _split_into_paragraphs (text : String) : List String :=
  let cs := (pyStrip text).data
  let fragments := reSplitBlankAux (cs.length + 1) [] cs
  (fragments.map (fun l => pyStrip (String.mk l))).filter (fun p => p ≠ "")

/-- Value model for the external `yaml.safe_load`.  `null` is Python
`None`. -/
inductive Yaml where
  | null
  | int (n : Int)
  | str (s : String)
  | dict (kvs : List (String × Yaml))

/-- Python truthiness of a YAML value (`None`, `0`, `""` and empty
collections are falsy). -/
def yamlTruthy : Yaml → Bool
  | .null => false
  | .int n => n != 0
  | .str s => s != ""
  | .dict kvs => !kvs.isEmpty

/-- Python truthiness of an optional YAML value. -/
def pyOptYamlTruthy : Option Yaml → Bool
  | none => false
  | some v => yamlTruthy v

/-- Python `str()` of a YAML scalar, as interpolated into f-strings by the
renderers (only scalars are exercised by the theorems below). -/
def yamlStr : Yaml → String
  | .null => "None"
  | .int n => toString n
  | .str s => s
  | .dict _ => "\x7b...\x7d"

/-- A stripped line parsed as a YAML scalar: empty is `None`, an integer
literal is an int, anything else a string. -/
def yamlScalar (s : String) : Yaml :=
  if s = "" then .null
  else
    match pyInt s with
    | some n => .int n
    | none => .str s

/-- Whether a stripped line is a mapping entry (`key: value` with a space
after the colon, or a bare `key:`). -/
def lineHasColon (l : String) : Bool :=
  (pySplit l ": ").length ≥ 2 || (l.data.getLast? == some ':')

/-- A mapping line split into key and scalar value. -/
def parseKV (l : String) : String × Yaml :=
  match pySplit l ": " with
  | [single] => (pyStrip (String.mk single.data.dropLast), Yaml.null)
  | k :: rest => (pyStrip k, yamlScalar (pyStrip (String.intercalate ": " rest)))
  | [] => ("", Yaml.null)

/-- Minimal model of the external `yaml.safe_load` covering the shapes the
theorems below exercise: an all-blank document is `None`; a document whose
non-blank lines are all `key: value` entries is a flat mapping (an entry
whose value contains a further `: ` raises, as PyYAML does for
`a: b: c`); a document with no mapping lines is a plain scalar (multiple
plain lines fold into one with spaces); mixing mapping and non-mapping
lines raises.  `Except.error` models `yaml.YAMLError`. -/
def safe_load (s : String) : Except Unit Yaml :=
  let ls := ((pySplit s "\n").map pyStrip).filter (fun l => l ≠ "")
  if ls = [] then .ok .null
  else if ls.all lineHasColon then
    if ls.any (fun l => (pySplit l ": ").length ≥ 3) then .error ()
    else .ok (.dict (ls.map parseKV))
  else if ls.all (fun l => !lineHasColon l) then
    .ok (yamlScalar (String.intercalate " " ls))
  else .error ()

/-- `CooklangParser._parse_metadata` (parser.py lines 1157-1181): after
discarding leading blank lines, an opening `---` line starts a front-matter
block ended by the next `---` line; the enclosed lines are fed to
`yaml.safe_load` (a falsy result is replaced by `{}` via `or {}`); a
`yaml.YAMLError` is swallowed and, like a missing opener or closer, yields
the original text with an empty mapping. -/
def _parse_metadata (text : String) : String × Yaml :=
  let lines := (pySplit text "\n").dropWhile (fun l => pyStrip l = "")
  match lines with
  | [] => (text, .dict [])
  | l0 :: rest =>
    if pyStrip l0 = "---" then
      match rest.findIdx? (fun l => pyStrip l = "---") with
      | some j =>
          let yaml_content := String.intercalate "\n" (rest.take j)
          match safe_load yaml_content with
          | .error _ => (text, .dict [])
          | .ok v =>
              (pyStrip (String.intercalate "\n" (rest.drop (j + 1))),
               if yamlTruthy v then v else .dict [])
      | none => (text, .dict [])
    else (text, .dict [])

/-- `RecipeSettings` (parser.py lines 621-629). -/
structure RecipeSettings where
  ignore_section_depth : Bool := true
deriving DecidableEq, Repr

/-- The `Recipe` dataclass (parser.py lines 632-1013).  The metadata
mapping is stored as an association list; `parse` only constructs a Recipe
when the front-matter value is a mapping (otherwise it raises first, see
`CooklangParser.parse`). -/
structure Recipe where
  title : Option Yaml := none
  metadata : List (String × Yaml) := []
  steps : List Step := []
  sections : List Section := []
  settings : RecipeSettings := {}

/-- The loop state of `CooklangParser.parse` (parser.py lines 1133-1152):
accumulated steps and sections and the current section. -/
structure ParserState where
  steps : List Step := []
  sections : List Section := []
  current_section : Option Section := none

/-- The body of the paragraph loop of `CooklangParser.parse` (parser.py
lines 1135-1152): a stripped paragraph matching `section_pattern` is
consumed as a `Section` (becoming the current section); any other
non-empty paragraph becomes a `Step` tagged with the current section. -/
def processParagraph (st : ParserState) (paragraph : String) : ParserState :=
  let p := pyStrip paragraph
  if p = "" then st
  else
    match sectionMatch p with
    | some lt =>
        let sec : Section := { title := lt.2, level := lt.1 }
        { st with sections := st.sections ++ [sec], current_section := some sec }
    | none =>
        let step := _parse_step p
        { st with steps := st.steps ++ [{ step with secRef := st.current_section }] }

/-- The Python errors the embedded code can raise. -/
inductive PyErr where
  | attributeError
deriving DecidableEq, Repr

/-- `CooklangParser.parse` (parser.py lines 1119-1155), with the parser's
`ignore_section_depth` setting (line 1086).  `recipe.metadata.get("title")`
is an attribute access on the front-matter value: when that value is not a
mapping (`str`, `list`, ... have no `.get`) Python raises
`AttributeError`, modelled as `Except.error`.  A falsy non-mapping was
already replaced by `{}` inside `_parse_metadata`. -/
def CooklangParser.parse (ignore_section_depth : Bool) (text : String) :
    Except PyErr Recipe :=
  let r := _parse_metadata text
  match r.2 with
  | .dict kvs =>
      let title := (kvs.find? (fun kv => kv.1 == "title")).map (fun kv => kv.2)
      let paragraphs := _split_into_paragraphs r.1
      let st := paragraphs.foldl processParagraph {}
      .ok { title := title, metadata := kvs, steps := st.steps,
            sections := st.sections,
            settings := { ignore_section_depth := ignore_section_depth } }
  | _ => .error .attributeError

/-- Decidable equality for lifted quantity values (helps instance
search for the dedup key tuples below). -/
instance : DecidableEq ((Int × Nat) ⊕ String) := inferInstance

/-- The dedup identity of an ingredient: the tuple
`(name, unit, preparation, quantity)` of `_deduplicate_ingredients`
(parser.py lines 969-974), with the quantity lifted so that tuple equality
is Python `==` (identifying equal ints and floats). -/
def ingredientKey (i : Ingredient) :
    String × Option String × Option String × Option ((Int × Nat) ⊕ String) :=
  (i.name, i.unit, i.preparation, i.quantity.map pyNumLift)

/-- The dedup identity of a timer: the tuple `(name, duration, unit)` of
`_deduplicate_timers` (parser.py line 1009), quantity lifted as above. -/
def timerKey (t : Timer) :
    Option String × Option ((Int × Nat) ⊕ String) × Option String :=
  (t.name, t.duration.map pyNumLift, t.unit)

/-- The seen-set-plus-output-list loop shared by `_deduplicate_ingredients`,
`_deduplicate_cookware` and `_deduplicate_timers` (parser.py lines
955-1013): keep an element iff its key is not in `seen`, adding kept keys
to `seen`.  The Python `set` is modelled as the list of keys inserted so
far. -/
def dedupAux {α κ : Type} [DecidableEq κ] (key : α → κ) (seen : List κ) :
    List α → List α
  | [] => []
  | x :: xs =>
      if key x ∈ seen then dedupAux key seen xs
      else x :: dedupAux key (key x :: seen) xs

/-- `Recipe._deduplicate_ingredients` (parser.py lines 955-978). -/
def _deduplicate_ingredients (l : List Ingredient) : List Ingredient :=
  dedupAux ingredientKey [] l

/-- `Recipe._deduplicate_cookware` (parser.py lines 980-995): identity is
the name only. -/
def _deduplicate_cookware (l : List Cookware) : List Cookware :=
  dedupAux Cookware.name [] l

/-- `Recipe._deduplicate_timers` (parser.py lines 997-1013). -/
def _deduplicate_timers (l : List Timer) : List Timer :=
  dedupAux timerKey [] l

/-- `Recipe.ingredients` (parser.py lines 661-674): the extend-loop over
steps flattens in step order then token order; then deduplicate. -/
def Recipe.ingredients (r : Recipe) : List Ingredient :=
  _deduplicate_ingredients (r.steps.map Step.ingredients).flatten

/-- `Recipe.cookware` (parser.py lines 676-689). -/
def Recipe.cookware (r : Recipe) : List Cookware :=
  _deduplicate_cookware (r.steps.map Step.cookware).flatten

/-- `Recipe.timers` (parser.py lines 691-704). -/
def Recipe.timers (r : Recipe) : List Timer :=
  _deduplicate_timers (r.steps.map Step.timers).flatten

/-- The rendered heading depth shared by `to_markdown` and `to_html`
(parser.py lines 783-787, 911-915): fixed at 3 when
`ignore_section_depth`, else `min(level + 2, 6)`. -/
def sectionLevelMdHtml (settings : RecipeSettings) (sec : Section) : Nat :=
  if settings.ignore_section_depth then 3 else min (sec.level + 2) 6

/-- Fuel-indexed worker for `advanceSections`; the fuel is at least
`sections.length + 1`, so the exhaustion branch is never taken. -/
def advanceSectionsAux (sections : List Section) (target : Section) :
    Nat → Option Section → Nat → List Section × Option Section × Nat
  | 0, cur, idx => ([], cur, idx)
  | fuel + 1, cur, idx =>
      if cur ≠ some target ∧ idx < sections.length then
        match sections.get? idx with
        | some c =>
            let r := advanceSectionsAux sections target fuel (some c) (idx + 1)
            (c :: r.1, r.2.1, r.2.2)
        | none => ([], cur, idx)
      else ([], cur, idx)

/-- The while-loop advancing through intervening sections, inlined
identically in `to_markdown`, `to_latex` and `to_html` (parser.py lines
777-782, 827-832, 905-910): while the current section differs from the
step's section and sections remain, emit the next section and make it
current.  Returns the emitted sections and the new
(current section, next index) state; `idx` is the Python
`current_section_index + 1`. -/
def advanceSections (sections : List Section) (cur : Option Section)
    (idx : Nat) (target : Section) : List Section × Option Section × Nat :=
  advanceSectionsAux sections target (sections.length + 1) cur idx

/-- The per-step section advance guard shared by the three renderers
(`if step.section and step.section != current_section:`, parser.py lines
775, 824, 903; a `Section` object is always truthy). -/
def stepAdvance (sections : List Section) (cur : Option Section) (idx : Nat)
    (step : Step) : List Section × Option Section × Nat :=
  match step.secRef with
  | some target =>
      if some target ≠ cur then advanceSections sections cur idx target
      else ([], cur, idx)
  | none => ([], cur, idx)

/-- A Markdown section heading line (parser.py line 788). -/
def mdSectionHeader (settings : RecipeSettings) (c : Section) : String :=
  String.mk (List.replicate (sectionLevelMdHtml settings c) '#') ++ " " ++ c.title

/-- The steps loop of `to_markdown` (parser.py lines 772-794): emits
heading lines (each followed by a blank line) for advanced sections, then
the step's stripped markdown (followed by a blank line) when non-empty.
Returns the emitted lines and the final next-section index. -/
def mdStepsLoop (sections : List Section) (settings : RecipeSettings) :
    List Step → Option Section → Nat → List String × Nat
  | [], _, idx => ([], idx)
  | step :: rest, cur, idx =>
      let adv := stepAdvance sections cur idx step
      let headers := (adv.1.map (fun c => [mdSectionHeader settings c, ""])).flatten
      let md := pyStrip step.to_markdown
      let r := mdStepsLoop sections settings rest adv.2.1 adv.2.2
      (headers ++ (if md ≠ "" then [md, ""] else []) ++ r.1, r.2)

/-- `Recipe.to_markdown` (parser.py lines 726-807).  Note that the
trailing flush of unemitted sections (lines 795-805) is inside the
`if self.steps and include_instructions:` block. -/
def Recipe.to_markdown (r : Recipe)
    (include_ingredients include_cookware include_instructions : Bool) : String :=
  let result : List String :=
    (if pyOptYamlTruthy r.title then
       ["# " ++ yamlStr (r.title.getD .null), ""]
     else []) ++
    (if r.ingredients ≠ [] ∧ include_ingredients then
       ["## Ingredients", ""] ++ r.ingredients.map (fun i => "- " ++ Ingredient.str i) ++ [""]
     else []) ++
    (if r.cookware ≠ [] ∧ include_cookware then
       ["## Equipment", ""] ++ r.cookware.map (fun c => "- " ++ Cookware.str c) ++ [""]
     else []) ++
    (if r.sections ≠ [] ∨ (r.steps ≠ [] ∧ include_instructions) then
       ["## Instructions", ""]
     else []) ++
    (if r.steps ≠ [] ∧ include_instructions then
       let loop := mdStepsLoop r.sections r.settings r.steps none 0
       loop.1 ++
         ((r.sections.drop loop.2).map (fun c => [mdSectionHeader r.settings c, ""])).flatten
     else [])
  pyStrip (String.intercalate "\n" result)

/-- An HTML section heading (parser.py lines 916-918). -/
def htmlSectionHeader (settings : RecipeSettings) (c : Section) : String :=
  let lvl := toString (sectionLevelMdHtml settings c)
  "<h" ++ lvl ++ ">" ++ c.title ++ "</h" ++ lvl ++ ">"

/-- The steps loop of `to_html` (parser.py lines 901-920): advanced
section headings, then the step wrapped in `<p>` (unconditionally). -/
def htmlStepsLoop (sections : List Section) (settings : RecipeSettings) :
    List Step → Option Section → Nat → List String × Nat
  | [], _, idx => ([], idx)
  | step :: rest, cur, idx =>
      let adv := stepAdvance sections cur idx step
      let headers := adv.1.map (htmlSectionHeader settings)
      let r := htmlStepsLoop sections settings rest adv.2.1 adv.2.2
      (headers ++ ["<p>" ++ step.to_html ++ "</p>"] ++ r.1, r.2)

/-- `Recipe.to_html` (parser.py lines 858-933).  The trailing flush of
unemitted sections (lines 921-932) is outside the `if self.steps:` block,
so it also runs for a recipe with sections but no steps. -/
def Recipe.to_html (r : Recipe) (image_path : Option String) : String :=
  let imgVal := (r.metadata.find? (fun kv => kv.1 == "image")).map (fun kv => kv.2)
  let imgPathTruthy := pyOptStrTruthy image_path
  let results : List String :=
    (if pyOptYamlTruthy r.title then
       ["<h1>" ++ yamlStr (r.title.getD .null) ++ "</h1>"]
     else []) ++
    (if pyOptYamlTruthy imgVal ∨ imgPathTruthy then
       ["<img src=\"" ++
          (if imgPathTruthy then image_path.getD "" else yamlStr (imgVal.getD .null)) ++
          "\" alt=\"Recipe Image for " ++
          (if pyOptYamlTruthy r.title then yamlStr (r.title.getD .null) else "Recipe") ++
          "\"/>"]
     else []) ++
    (if r.ingredients ≠ [] then
       ["<h2>Ingredients</h2>", "<ul>"] ++
         r.ingredients.map (fun i => "<li>" ++ Ingredient.str i ++ "</li>") ++ ["</ul>"]
     else []) ++
    (if r.cookware ≠ [] then
       ["<h2>Equipment</h2>", "<ul>"] ++
         r.cookware.map (fun c => "<li>" ++ Cookware.str c ++ "</li>") ++ ["</ul>"]
     else []) ++
    (if r.sections ≠ [] ∨ r.steps ≠ [] then ["<h2>Instructions</h2>"] else []) ++
    (let loop :=
       if r.steps ≠ [] then htmlStepsLoop r.sections r.settings r.steps none 0
       else ([], 0)
     loop.1 ++ (r.sections.drop loop.2).map (htmlSectionHeader r.settings))
  pyStrip (String.intercalate "\n" results)

/-- `Recipe.to_text` (parser.py lines 935-953). -/
def Recipe.to_text (r : Recipe) : String :=
  let results : List String :=
    (if pyOptYamlTruthy r.title then [yamlStr (r.title.getD .null), ""] else []) ++
    (r.steps.map (fun s => [s.to_plain_text, ""])).flatten
  pyStrip (String.intercalate "\n" results)

/-- The `section_level_latex` lookup of `to_latex` (parser.py lines
818-822); `none` models a `KeyError` for levels outside 1..3. -/
def latexSectionName : Nat → Option String
  | 1 => some "section"
  | 2 => some "subsection"
  | 3 => some "subsubsection"
  | _ => none

/-- A LaTeX section heading (parser.py lines 833-840): depth 1 when
`ignore_section_depth`, else `min(level, 3)`. -/
def latexSectionHeader (settings : RecipeSettings) (c : Section) : Option String :=
  let lvl := if settings.ignore_section_depth then 1 else min c.level 3
  (latexSectionName lvl).map (fun n => "\\" ++ n ++ "\x7b" ++ c.title ++ "\x7d\n")

/-- The steps loop of `to_latex` (parser.py lines 823-841): advanced
section headings, then the step's LaTeX (unconditionally); `none` models a
`KeyError` from the heading lookup. -/
def latexStepsLoop (sections : List Section) (settings : RecipeSettings) :
    List Step → Option Section → Nat → Option (List String × Nat)
  | [], _, idx => some ([], idx)
  | step :: rest, cur, idx =>
      let adv := stepAdvance sections cur idx step
      match adv.1.mapM (latexSectionHeader settings) with
      | some headers =>
          match latexStepsLoop sections settings rest adv.2.1 adv.2.2 with
          | some r => some (headers ++ [step.to_latex] ++ r.1, r.2)
          | none => none
      | none => none

/-- `Recipe.to_latex` (parser.py lines 809-856); results are joined with
`"".join`, and the trailing section flush (lines 843-853) is outside the
steps loop. -/
def Recipe.to_latex (r : Recipe) : Option String :=
  let title :=
    "\n\\begin\x7brecipe\x7d\x7b" ++
      (if pyOptYamlTruthy r.title then yamlStr (r.title.getD .null) else "Recipe") ++
      "\x7d\x7b\x7d\n\n"
  let closing := "\\end\x7brecipe\x7d\n\\cleardoublepage\n\n"
  match latexStepsLoop r.sections r.settings r.steps none 0 with
  | some lp =>
      match (r.sections.drop lp.2).mapM (latexSectionHeader r.settings) with
      | some flush => some (String.join ([title] ++ lp.1 ++ flush ++ [closing]))
      | none => none
  | none => none

/-- Whether a token is a `TimerToken`. -/
def isTimerToken : Token → Bool
  | .timerTok _ _ _ _ => true
  | _ => false

/-- Concatenation of the verbatim texts of a token list (as in
`Step.text`). -/
def tokensText (ts : List Token) : String :=
  String.join (ts.map Token.text)

/-- Interleaving of `n + 1` gap strings with `n` match texts:
`g₀ ++ t₁ ++ g₁ ++ ... ++ tₙ ++ gₙ`. -/
def interleave : List String → List String → String
  | g :: gs, t :: ts => g ++ t ++ interleave gs ts
  | g :: _, [] => g
  | [], _ => ""

/-- A whitespace-only gap is dropped, any other gap is kept verbatim. -/
def wsDropGap (g : String) : String :=
  if pyStrip g = "" then "" else g

/-- Adjacent matches in a sorted match list do not overlap: each match
ends at or before the next one starts. -/
def chainDisjoint : List (Nat × Nat × MatchData × String) → Bool
  | [] => true
  | [_] => true
  | a :: b :: rest => decide (a.2.1 ≤ b.1) && chainDisjoint (b :: rest)

/-- The declarative reading of the section-heading contract over the
whole paragraph: one or more leading `=` markers (their count is the
level), then optional whitespace, a title containing no newline, optional
whitespace, and zero or more trailing `=` markers ending the paragraph. -/
def headingDecomp (p : String) : Prop :=
  let k := (p.data.takeWhile (fun c => c = '=')).length
  1 ≤ k ∧
    ∃ w1 t w2 m, p.data.drop k = w1 ++ t ++ w2 ++ List.replicate m '=' ∧
      w1.all isSpaceChar ∧ w2.all isSpaceChar ∧ '\n' ∉ t

/-- A front-matter opener `---` (after leading blank lines) with no
closing `---` line anywhere after it. -/
def frontMatterNoClosing (text : String) : Bool :=
  match (pySplit text "\n").dropWhile (fun l => pyStrip l = "") with
  | [] => false
  | l0 :: rest =>
      (pyStrip l0 == "---") && rest.all (fun l => pyStrip l != "---")

/-- A complete front-matter block whose enclosed lines make `safe_load`
raise a `yaml.YAMLError`. -/
def frontMatterYamlError (text : String) : Bool :=
  match (pySplit text "\n").dropWhile (fun l => pyStrip l = "") with
  | [] => false
  | l0 :: rest =>
      (pyStrip l0 == "---") &&
        (match rest.findIdx? (fun l => pyStrip l = "---") with
         | some j =>
             match safe_load (String.intercalate "\n" (rest.take j)) with
             | .error _ => true
             | .ok _ => false
         | none => false)

/-!
Theorems.  Helper lemmas come first, then one theorem per claim
(with witnesses and counterexamples as separate closed theorems).
-/

lemma foldl_strAppend (l : List String) (s : String) :
    l.foldl (· ++ ·) s = s ++ l.foldl (· ++ ·) "" := by
  induction l generalizing s with
  | nil => simp
  | cons a l ih =>
      simp only [List.foldl_cons]
      rw [ih (s ++ a), ih ("" ++ a)]
      simp [String.append_assoc]

lemma join_append (l1 l2 : List String) :
    String.join (l1 ++ l2) = String.join l1 ++ String.join l2 := by
  induction l1 with
  | nil => simp [String.join]
  | cons a l ih =>
      simp only [List.cons_append, String.join, List.foldl_cons] at ih ⊢
      rw [foldl_strAppend (l ++ l2), foldl_strAppend l, ih]
      simp [String.append_assoc]

lemma join_cons (a : String) (l : List String) :
    String.join (a :: l) = a ++ String.join l := by
  have := join_append [a] l
  simpa [String.join] using this

lemma tokensText_append (a b : List Token) :
    tokensText (a ++ b) = tokensText a ++ tokensText b := by
  simp [tokensText, join_append]

lemma tokensText_cons (t : Token) (l : List Token) :
    tokensText (t :: l) = Token.text t ++ tokensText l := by
  simp [tokensText, join_cons]

lemma strSub_append (cs : List Char) {a b c : Nat} (h1 : a ≤ b) (h2 : b ≤ c) :
    strSub cs a c = strSub cs a b ++ strSub cs b c := by
  show String.mk _ = String.mk _ ++ String.mk _
  have hdd : (cs.drop a).drop (b - a) = cs.drop b := by
    rw [List.drop_drop]
    congr 1
    omega
  have hca : c - a = (b - a) + (c - b) := by omega
  rw [hca, List.take_add, hdd]
  rfl

lemma strSub_zero_length (cs : List Char) :
    strSub cs 0 cs.length = String.mk cs := by
  simp [strSub]

lemma strSub_self (cs : List Char) (a : Nat) : strSub cs a a = "" := by
  simp [strSub]

/-- C2 counterexample: the tokenizer parses captured amounts with
`_parse_number(quantity_str)` (parser.py line 1302), leaving the
`fractions` flag at its default `False`; hence the amount string `"1/2"`
is NOT parsed to 0.5 but retained as the string `"1/2"`, both by
`_parse_number` at its call-site arguments and through the full
ingredient pipeline. -/
theorem C2_counterexample :
    _parse_number "1/2" false = PyNum.str "1/2" ∧
    PyNum.str "1/2" ≠ PyNum.float { num := 1, den := 2 } ∧
    (_parse_step "@flour\x7b1/2%cup\x7d").ingredients =
      [{ name := "flour", quantity := some (PyNum.str "1/2"),
         unit := some "cup", preparation := none }] :=
  ⟨by decide, by decide, by rfl⟩

/-- C2 amended: `_parse_number` attempts the fraction parse first only
when its `fractions` flag is enabled; the tokenizer's call sites leave it
disabled, so the amount string `"1/2"` is retained as the string `"1/2"`
(with the flag enabled it would parse to 0.5); `"3"` parses to the integer
3, `"1.5"` to the float 1.5, `"abc"` is retained as the string `"abc"`;
the function is total (never raises), failures falling back to the
verbatim string. -/
theorem C2_amended :
    _parse_number "1/2" true = PyNum.float { num := 1, den := 2 } ∧
    _parse_number "1/2" false = PyNum.str "1/2" ∧
    _parse_number "3" false = PyNum.int 3 ∧
    _parse_number "1.5" false = PyNum.float { num := 3, den := 2 } ∧
    _parse_number "abc" false = PyNum.str "abc" ∧
    (_parse_step "@flour\x7b1/2%cup\x7d").ingredients =
      [{ name := "flour", quantity := some (PyNum.str "1/2"),
         unit := some "cup", preparation := none }] ∧
    (_parse_step "@flour\x7b3%g\x7d").ingredients =
      [{ name := "flour", quantity := some (PyNum.int 3),
         unit := some "g", preparation := none }] ∧
    (_parse_step "@flour\x7b1.5%g\x7d").ingredients =
      [{ name := "flour", quantity := some (PyNum.float { num := 3, den := 2 }),
         unit := some "g", preparation := none }] :=
  ⟨by decide, by decide, by decide, by decide, by decide, by rfl, by rfl, by rfl⟩

/-- C10: an ingredient quantity of `0` (or `0.0`) is falsy, and quantity
presence is tested by truthiness (`if self.quantity:`, parser.py lines 87,
316, 328), so `Ingredient.__str__`, `IngredientToken.to_markdown` and
`IngredientToken.to_html` render exactly as if the quantity were `None`:
the quantity and unit are omitted and only the name (with preparation, if
present) appears. -/
theorem C10_zero_quantity (name : String) (unit prep : Option String)
    (orig : String) (a b : Nat) :
    (Ingredient.str { name := name, quantity := some (PyNum.int 0), unit := unit, preparation := prep } =
       Ingredient.str { name := name, quantity := none, unit := unit, preparation := prep }) ∧
    (Ingredient.str { name := name, quantity := some (PyNum.float { num := 0, den := 1 }), unit := unit, preparation := prep } =
       Ingredient.str { name := name, quantity := none, unit := unit, preparation := prep }) ∧
    (Token.to_markdown (.ingredientTok orig a b { name := name, quantity := some (PyNum.int 0), unit := unit, preparation := prep }) =
       Token.to_markdown (.ingredientTok orig a b { name := name, quantity := none, unit := unit, preparation := prep })) ∧
    (Token.to_markdown (.ingredientTok orig a b { name := name, quantity := some (PyNum.float { num := 0, den := 1 }), unit := unit, preparation := prep }) =
       Token.to_markdown (.ingredientTok orig a b { name := name, quantity := none, unit := unit, preparation := prep })) ∧
    (Token.to_html (.ingredientTok orig a b { name := name, quantity := some (PyNum.int 0), unit := unit, preparation := prep }) =
       Token.to_html (.ingredientTok orig a b { name := name, quantity := none, unit := unit, preparation := prep })) ∧
    (Token.to_html (.ingredientTok orig a b { name := name, quantity := some (PyNum.float { num := 0, den := 1 }), unit := unit, preparation := prep }) =
       Token.to_html (.ingredientTok orig a b { name := name, quantity := none, unit := unit, preparation := prep })) ∧
    Ingredient.str { name := "flour", quantity := some (PyNum.int 0), unit := some "g", preparation := none } = "flour" ∧
    Ingredient.str { name := "onion", quantity := some (PyNum.float { num := 0, den := 1 }), unit := none, preparation := some "diced" } = "onion (diced)" :=
  ⟨rfl, rfl, rfl, rfl, rfl, rfl, by decide, by decide⟩

/-- C1 counterexample: matchers scan the whole paragraph independently, so
a block comment containing an ingredient reference yields overlapping
matches; the assembly loop emits both tokens in full and then re-emits the
overlap's tail as trailing text, so the concatenated token text does not
reproduce the paragraph (the difference is not a dropped whitespace gap:
the concatenation is strictly longer than the paragraph). -/
theorem C1_counterexample :
    Step.text (_parse_step "[- @salt -]") = "[- @salt -]@salt -]" ∧
    "[- @salt -]@salt -]" ≠ "[- @salt -]" ∧
    ("[- @salt -]@salt -]".length > "[- @salt -]".length) :=
  ⟨by rfl, by decide, by decide⟩

lemma reFinditerAux_bounds {α : Type} (tryAt : Bool → List Char → Option (List Char × α)) :
    ∀ (fuel : Nat) (ls : Bool) (i : Nat) (s : List Char)
      (m : Nat × Nat × α), m ∈ reFinditerAux tryAt fuel ls i s →
      i ≤ m.1 ∧ m.1 ≤ m.2.1 ∧ m.2.1 ≤ i + s.length := by
  intro fuel
  induction fuel with
  | zero => intro ls i s m hm; simp [reFinditerAux] at hm
  | succ n ih =>
      intro ls i s m hm
      match s with
      | [] => simp [reFinditerAux] at hm
      | c :: rest =>
          rw [reFinditerAux] at hm
          cases htry : tryAt ls (c :: rest) with
          | none =>
              rw [htry] at hm
              have := ih (c = '\n') (i + 1) rest m hm
              simp only [List.length_cons]
              omega
          | some p =>
              rw [htry] at hm
              simp only [List.mem_cons] at hm
              rcases hm with hm | hm
              · subst hm
                simp only [List.length_cons]
                omega
              · have := ih (lastIsNewline ((c :: rest).take (max ((c :: rest).length - p.1.length) 1)))
                  (i + max ((c :: rest).length - p.1.length) 1)
                  ((c :: rest).drop (max ((c :: rest).length - p.1.length) 1)) m hm
                simp only [List.length_drop, List.length_cons] at this ⊢
                omega

lemma mem_mapped_bounds {α : Type} (cs : List Char)
    (tryAt : Bool → List Char → Option (List Char × α))
    (f : Nat × Nat × α → Nat × Nat × MatchData × String)
    (hf : ∀ x, (f x).1 = x.1 ∧ (f x).2.1 = x.2.1 ∧ (f x).2.2.2 = strSub cs x.1 x.2.1)
    (m : Nat × Nat × MatchData × String)
    (hm : m ∈ (reFinditer tryAt cs).map f) :
    m.1 ≤ m.2.1 ∧ m.2.1 ≤ cs.length ∧ m.2.2.2 = strSub cs m.1 m.2.1 := by
  simp only [List.mem_map] at hm
  obtain ⟨x, hx, rfl⟩ := hm
  have hb := reFinditerAux_bounds tryAt (cs.length + 1) true 0 cs x hx
  obtain ⟨h1, h2, h3⟩ := hf x
  rw [h1, h2, h3]
  exact ⟨hb.2.1, by omega, rfl⟩

lemma collectMatches_bounds (cs : List Char) (m : Nat × Nat × MatchData × String)
    (hm : m ∈ collectMatches cs) :
    m.1 ≤ m.2.1 ∧ m.2.1 ≤ cs.length ∧ m.2.2.2 = strSub cs m.1 m.2.1 := by
  simp only [collectMatches, ingredientMatches, cookwareMatches, timerMatches,
    noteMatches, commentInlineMatches, commentBlockMatches, List.mem_append] at hm
  rcases hm with ((((h | h) | h) | h) | h) | h <;>
  · refine mem_mapped_bounds cs _ _ ?_ m h
    intro x
    exact ⟨rfl, rfl, rfl⟩

lemma insertByStart_perm (x : Nat × Nat × MatchData × String)
    (l : List (Nat × Nat × MatchData × String)) :
    (insertByStart x l).Perm (x :: l) := by
  induction l with
  | nil => simp [insertByStart]
  | cons y ys ih =>
      rw [insertByStart]
      split
      · exact ((ih.cons y).trans (List.Perm.swap x y ys))
      · exact List.Perm.refl _

lemma sortByStart_perm (l : List (Nat × Nat × MatchData × String)) :
    (sortByStart l).Perm l := by
  induction l with
  | nil => simp [sortByStart]
  | cons x xs ih =>
      rw [sortByStart]
      exact (insertByStart_perm x (sortByStart xs)).trans (ih.cons x)

lemma sortedMatches_mem (cs : List Char) (m : Nat × Nat × MatchData × String) :
    m ∈ sortedMatches cs ↔ m ∈ collectMatches cs :=
  (sortByStart_perm (collectMatches cs)).mem_iff

lemma chainDisjoint_cons (x : Nat × Nat × MatchData × String)
    (l : List (Nat × Nat × MatchData × String))
    (h : chainDisjoint (x :: l) = true) :
    chainDisjoint l = true ∧ ∀ y, l.head? = some y → x.2.1 ≤ y.1 := by
  cases l with
  | nil => simp [chainDisjoint]
  | cons y ys =>
      rw [chainDisjoint] at h
      simp only [Bool.and_eq_true, decide_eq_true_eq] at h
      refine ⟨h.2, fun z hz => ?_⟩
      simp only [List.head?_cons, Option.some.injEq] at hz
      exact hz ▸ h.1

lemma tokenOfData_text (d : MatchData) (orig : String) (s e : Nat) :
    Token.text
      (match d with
       | .ing i => Token.ingredientTok orig s e i
       | .cook c => Token.cookwareTok orig s e c
       | .tim t => Token.timerTok orig s e t
       | .comm c => Token.commentTok orig s e c
       | .note n => Token.noteTok orig s e n) = orig := by
  cases d <;> rfl

lemma tokensText_gap (cs : List Char) (pos s : Nat) (hps : pos ≤ s) :
    tokensText
      (if pos < s then
         if pyStrip (strSub cs pos s) ≠ "" then [Token.textTok (strSub cs pos s) pos s] else []
       else []) = wsDropGap (strSub cs pos s) := by
  by_cases h1 : pos < s
  · by_cases h2 : pyStrip (strSub cs pos s) = ""
    · simp [h1, h2, wsDropGap, tokensText, String.join]
    · simp [h1, h2, wsDropGap, tokensText, String.join, Token.text]
  · have : pos = s := by omega
    subst this
    simp [h1, wsDropGap, strSub_self, tokensText, String.join, pyStrip, pyStripList]

lemma buildTokens_decomp (cs : List Char) :
    ∀ (ms : List (Nat × Nat × MatchData × String)) (pos : Nat),
      pos ≤ cs.length →
      (∀ m ∈ ms, m.1 ≤ m.2.1 ∧ m.2.1 ≤ cs.length ∧ m.2.2.2 = strSub cs m.1 m.2.1) →
      (∀ y, ms.head? = some y → pos ≤ y.1) →
      chainDisjoint ms = true →
      ∃ gaps : List String,
        gaps.length = ms.length + 1 ∧
        strSub cs pos cs.length = interleave gaps (ms.map (fun m => m.2.2.2)) ∧
        tokensText (buildTokens cs pos ms) =
          interleave (gaps.map wsDropGap) (ms.map (fun m => m.2.2.2)) := by
  intro ms
  induction ms with
  | nil =>
      intro pos hpos _ _ _
      refine ⟨[strSub cs pos cs.length], rfl, rfl, ?_⟩
      rw [buildTokens]
      by_cases h1 : pos < cs.length
      · by_cases h2 : pyStrip (strSub cs pos cs.length) = ""
        · simp [h1, h2, tokensText, String.join, interleave, wsDropGap]
        · simp [h1, h2, tokensText, String.join, interleave, wsDropGap, Token.text]
      · have : pos = cs.length := by omega
        subst this
        simp [h1, tokensText, String.join, interleave, wsDropGap, strSub_self,
          pyStrip, pyStripList]
  | cons m rest ih =>
      intro pos hpos hb hhead hchain
      obtain ⟨s, e, d, t⟩ := m
      obtain ⟨hse, hel, ht⟩ := hb (s, e, d, t) (List.mem_cons_self _ _)
      simp only at hse hel ht
      have hps : pos ≤ s := hhead _ rfl
      obtain ⟨hchain', hnext⟩ := chainDisjoint_cons _ _ hchain
      obtain ⟨gaps', hlen', horig', htok'⟩ :=
        ih e hel (fun x hx => hb x (List.mem_cons_of_mem _ hx))
          (fun y hy => hnext y hy) hchain'
      refine ⟨strSub cs pos s :: gaps', by simp [hlen'], ?_, ?_⟩
      · have h1 : strSub cs pos cs.length =
            strSub cs pos s ++ strSub cs s e ++ strSub cs e cs.length := by
          rw [strSub_append cs (le_trans hps hse) hel, strSub_append cs hps hse]
        rw [h1, horig']
        simp only [List.map_cons, interleave, ht]
      · simp only [buildTokens]
        rw [tokensText_append, tokensText_cons]
        rw [tokenOfData_text, htok', tokensText_gap cs pos s hps]
        simp only [List.map_cons, interleave, ht]
        rw [String.append_assoc]

/-- C1 amended: when the collected matches of a paragraph are pairwise
non-overlapping (each match in the sorted list ends at or before the next
one starts), the paragraph splits into gaps interleaved with the matched
texts, and the concatenated verbatim texts of the Step's tokens reproduce
exactly that interleaving with every whitespace-only gap dropped. -/
theorem C1_amended (text : String)
    (h : chainDisjoint (sortedMatches text.data) = true) :
    ∃ gaps : List String,
      gaps.length = (sortedMatches text.data).length + 1 ∧
      text = interleave gaps ((sortedMatches text.data).map (fun m => m.2.2.2)) ∧
      Step.text (_parse_step text) =
        interleave (gaps.map wsDropGap)
          ((sortedMatches text.data).map (fun m => m.2.2.2)) := by
  obtain ⟨gaps, hlen, horig, htok⟩ :=
    buildTokens_decomp text.data (sortedMatches text.data) 0 (Nat.zero_le _)
      (fun m hm => collectMatches_bounds text.data m ((sortedMatches_mem _ _).mp hm))
      (fun y _ => Nat.zero_le _) h
  refine ⟨gaps, hlen, ?_, htok⟩
  rw [← horig, strSub_zero_length]

/-- C1 witness: the paragraph `"Add @salt now"` has one match, its sorted
match list is disjoint, and the amended reconstruction property holds on
it. -/
theorem C1_witness :
    chainDisjoint (sortedMatches "Add @salt now".data) = true ∧
    ∃ gaps : List String,
      gaps.length = (sortedMatches "Add @salt now".data).length + 1 ∧
      "Add @salt now" =
        interleave gaps ((sortedMatches "Add @salt now".data).map (fun m => m.2.2.2)) ∧
      Step.text (_parse_step "Add @salt now") =
        interleave (gaps.map wsDropGap)
          ((sortedMatches "Add @salt now".data).map (fun m => m.2.2.2)) :=
  ⟨by decide, C1_amended "Add @salt now" (by decide)⟩

lemma tryBraced_some_brace {q : Char} {req : Bool} {s : List Char}
    {r : List Char × BracedGroups} (h : tryBraced q req s = some r) : '{' ∈ s := by
  match s with
  | [] => simp [tryBraced] at h
  | c :: rest =>
      simp only [tryBraced] at h
      by_cases hq : c = q
      case neg => rw [if_neg hq] at h; exact absurd h (by simp)
      case pos =>
        rw [if_pos hq] at h
        by_cases hreq : (req && decide ((rest.takeWhile nameClass).length = 0)) = true
        · rw [if_pos hreq] at h
          exact absurd h (by simp)
        · rw [if_neg hreq] at h
          split at h
          next r2 heq =>
              have : '{' ∈ rest.drop (rest.takeWhile nameClass).length := by
                rw [heq]
                exact List.mem_cons_self _ _
              exact List.mem_cons_of_mem c ((List.drop_sublist _ _).mem this)
          next => exact absurd h (by simp)

lemma tryTimer_none (ls : Bool) (s : List Char) (h : '{' ∉ s) :
    tryTagged '~' false false ls s = none := by
  rw [tryTagged]
  cases htry : tryBraced '~' false s with
  | some r => exact absurd (tryBraced_some_brace htry) h
  | none => simp

lemma reFinditerAux_nil {α : Type} (tryAt : Bool → List Char → Option (List Char × α))
    (s₀ : List Char) (h : ∀ ls s, s <:+ s₀ → tryAt ls s = none) :
    ∀ (fuel : Nat) (ls : Bool) (i : Nat) (s : List Char), s <:+ s₀ →
      reFinditerAux tryAt fuel ls i s = [] := by
  intro fuel
  induction fuel with
  | zero => intro ls i s _; rfl
  | succ n ih =>
      intro ls i s hs
      match s with
      | [] => rfl
      | c :: rest =>
          rw [reFinditerAux, h ls (c :: rest) hs]
          exact ih (c = '\n') (i + 1) rest ((List.suffix_cons c rest).trans hs)

lemma timerMatches_nil (cs : List Char) (h : '{' ∉ cs) : timerMatches cs = [] :=
  reFinditerAux_nil _ cs
    (fun ls s hs => tryTimer_none ls s (fun hin => h (hs.subset hin)))
    (cs.length + 1) true 0 cs (List.suffix_refl cs)

lemma collect_no_tim (cs : List Char) (h : '{' ∉ cs) :
    ∀ m ∈ collectMatches cs, ∀ t, m.2.2.1 ≠ MatchData.tim t := by
  intro m hm t
  simp only [collectMatches, timerMatches_nil cs h, List.map_nil, List.mem_append,
    List.mem_map, List.not_mem_nil, or_false, false_or] at hm
  rcases hm with (((hm | hm) | hm) | hm) | hm <;>
    (obtain ⟨x, _, rfl⟩ := hm; simp)

lemma buildTokens_no_timer (cs : List Char) :
    ∀ (ms : List (Nat × Nat × MatchData × String)) (pos : Nat),
      (∀ m ∈ ms, ∀ t, m.2.2.1 ≠ MatchData.tim t) →
      ∀ tok ∈ buildTokens cs pos ms, isTimerToken tok = false := by
  intro ms
  induction ms with
  | nil =>
      intro pos _ tok htok
      rw [buildTokens] at htok
      by_cases h1 : pos < cs.length
      · by_cases h2 : pyStrip (strSub cs pos cs.length) = ""
        · simp [h1, h2] at htok
        · simp [h1, h2] at htok
          subst htok
          rfl
      · simp [h1] at htok
  | cons m rest ih =>
      intro pos hm tok htok
      obtain ⟨s, e, d, t⟩ := m
      have hd : ∀ tm, d ≠ MatchData.tim tm := fun tm => hm _ (List.mem_cons_self _ _) tm
      simp only [buildTokens, List.mem_append, List.mem_cons] at htok
      rcases htok with hg | hc | hr
      · by_cases h1 : pos < s
        · by_cases h2 : pyStrip (strSub cs pos s) = ""
          · simp [h1, h2] at hg
          · simp [h1, h2] at hg
            subst hg
            rfl
        · simp [h1] at hg
      · subst hc
        cases d with
        | tim tm => exact absurd rfl (hd tm)
        | ing i => rfl
        | cook c => rfl
        | note n => rfl
        | comm c => rfl
      · exact ih e (fun x hx tm => hm x (List.mem_cons_of_mem _ hx) tm) tok hr

/-- C3: the timer pattern has only the braced alternative (parser.py lines
1110-1112, `also_simple=False`), which requires a literal brace; so a
paragraph containing no brace (in particular one with a bare `~word`
reference) produces zero `TimerToken`s and zero `Timer` objects.
`_parse_step` is a total function, modelling that parsing never raises. -/
theorem C3_bare_timer (text : String) (h : '{' ∉ text.data) :
    (_parse_step text).timers = [] ∧
    ((_parse_step text).tokens.filter isTimerToken) = [] := by
  have hnotok : ∀ tok ∈ (_parse_step text).tokens, isTimerToken tok = false :=
    buildTokens_no_timer text.data (sortedMatches text.data) 0
      (fun m hm => collect_no_tim text.data h m ((sortedMatches_mem _ _).mp hm))
  constructor
  · refine List.filterMap_eq_nil_iff.mpr ?_
    intro tok htok
    have := hnotok tok htok
    cases tok <;> simp_all [isTimerToken]
  · refine List.filter_eq_nil_iff.mpr ?_
    intro tok htok
    simp [hnotok tok htok]

/-- C3 witness: the paragraph `"wait ~timer please"` contains a bare timer
reference and no braces; it yields no timers. -/
theorem C3_witness :
    '{' ∉ "wait ~timer please".data ∧
    (_parse_step "wait ~timer please").timers = [] ∧
    ((_parse_step "wait ~timer please").tokens.filter isTimerToken) = [] :=
  ⟨by decide, (C3_bare_timer "wait ~timer please" (by decide)).1,
   (C3_bare_timer "wait ~timer please" (by decide)).2⟩

lemma tryBraced_none (q : Char) (req : Bool) (s : List Char) (h : q ∉ s) :
    tryBraced q req s = none := by
  match s with
  | [] => rfl
  | c :: rest =>
      have hc : ¬ c = q := fun he => h (he ▸ List.mem_cons_self _ _)
      simp only [tryBraced]
      rw [if_neg hc]

lemma trySimple_none (q : Char) (s : List Char) (h : q ∉ s) :
    trySimple q s = none := by
  match s with
  | [] => rfl
  | c :: rest =>
      have hc : ¬ c = q := fun he => h (he ▸ List.mem_cons_self _ _)
      simp only [trySimple]
      rw [if_neg hc]

lemma tryTagged_none (q : Char) (req als ls : Bool) (s : List Char) (h : q ∉ s) :
    tryTagged q req als ls s = none := by
  rw [tryTagged, tryBraced_none q req s h]
  cases als with
  | true => simp [trySimple_none q s h]
  | false => simp

lemma tryCommentInline_none (ls : Bool) (s : List Char) (h : '-' ∉ s) :
    tryCommentInline ls s = none := by
  match s with
  | [] => rfl
  | [c] =>
      simp only [tryCommentInline]
  | c1 :: c2 :: rest =>
      have hc : c1 ≠ '-' := fun he => h (he ▸ List.mem_cons_self _ _)
      simp only [tryCommentInline]
      split <;> simp_all

lemma tryCommentBlock_none (ls : Bool) (s : List Char) (h : '-' ∉ s) :
    tryCommentBlock ls s = none := by
  match s with
  | [] => rfl
  | [c] =>
      simp only [tryCommentBlock]
  | c1 :: c2 :: rest =>
      have hc : c2 ≠ '-' := fun he =>
        h (he ▸ List.mem_cons_of_mem c1 (List.mem_cons_self _ _))
      simp only [tryCommentBlock]
      split <;> simp_all

lemma tryNote_none (ls : Bool) (s : List Char) (h : '>' ∉ s) :
    tryNote ls s = none := by
  cases ls with
  | false => rfl
  | true =>
      match s with
      | [] => rfl
      | c :: rest =>
          have hc : c ≠ '>' := fun he => h (he ▸ List.mem_cons_self _ _)
          simp only [tryNote, if_pos]
          split <;> simp_all

lemma matcher_nil {α : Type} (tryAt : Bool → List Char → Option (List Char × α))
    (cs : List Char) (h : ∀ ls s, s <:+ cs → tryAt ls s = none) :
    reFinditer tryAt cs = [] :=
  reFinditerAux_nil tryAt cs h (cs.length + 1) true 0 cs (List.suffix_refl cs)

/-- C8: a stripped, non-empty paragraph containing none of the markup
characters `@`, `#`, `~`, `>`, `-` matches no pattern, so the resulting
Step has exactly one `TextToken` whose text is the whole paragraph. -/
theorem C8_plain_text (text : String) (h0 : pyStrip text = text) (h1 : text ≠ "")
    (hat : '@' ∉ text.data) (hsh : '#' ∉ text.data) (htl : '~' ∉ text.data)
    (hgt : '>' ∉ text.data) (hda : '-' ∉ text.data) :
    (_parse_step text).tokens = [Token.textTok text 0 text.data.length] := by
  have hmem : ∀ (c : Char) (s : List Char), s <:+ text.data → c ∉ text.data → c ∉ s :=
    fun c s hs hc hin => hc (hs.subset hin)
  have hing : ingredientMatches text.data = [] :=
    matcher_nil _ _ (fun ls s hs => tryTagged_none '@' true true ls s (hmem _ _ hs hat))
  have hcook : cookwareMatches text.data = [] :=
    matcher_nil _ _ (fun ls s hs => tryTagged_none '#' true true ls s (hmem _ _ hs hsh))
  have htim : timerMatches text.data = [] :=
    matcher_nil _ _ (fun ls s hs => tryTagged_none '~' false false ls s (hmem _ _ hs htl))
  have hnote : noteMatches text.data = [] :=
    matcher_nil _ _ (fun ls s hs => tryNote_none ls s (hmem _ _ hs hgt))
  have hci : commentInlineMatches text.data = [] :=
    matcher_nil _ _ (fun ls s hs => tryCommentInline_none ls s (hmem _ _ hs hda))
  have hcb : commentBlockMatches text.data = [] :=
    matcher_nil _ _ (fun ls s hs => tryCommentBlock_none ls s (hmem _ _ hs hda))
  have hcollect : collectMatches text.data = [] := by
    rw [collectMatches, hing, hcook, htim, hnote, hci, hcb]
    rfl
  have hsorted : sortedMatches text.data = [] := by
    rw [sortedMatches, hcollect]
    rfl
  have hdata : text.data ≠ [] := by
    intro hd
    apply h1
    cases text
    simp only at hd
    rw [hd]
  have hlen : 0 < text.data.length := List.length_pos.mpr hdata
  have hsub : strSub text.data 0 text.data.length = text := by
    rw [strSub_zero_length]
  rw [_parse_step]
  simp only [hsorted, buildTokens, hsub]
  rw [if_pos hlen, if_pos (show pyStrip text ≠ "" from by rw [h0]; exact h1)]

/-- C8 witness: the paragraph `"Mix the eggs."` has no markup characters
and becomes a single full-width `TextToken`. -/
theorem C8_witness :
    pyStrip "Mix the eggs." = "Mix the eggs." ∧
    (_parse_step "Mix the eggs.").tokens =
      [Token.textTok "Mix the eggs." 0 "Mix the eggs.".data.length] :=
  ⟨by decide,
   C8_plain_text "Mix the eggs." (by decide) (by decide) (by decide) (by decide)
     (by decide) (by decide) (by decide)⟩

/-- C9: parsing is a pure function of the settings and the input text, so
parsing the same source twice with the same settings yields results that
are equal, in particular field-for-field equal recipes. -/
theorem C9_deterministic (b : Bool) (t : String) (r1 r2 : Recipe)
    (h1 : CooklangParser.parse b t = Except.ok r1)
    (h2 : CooklangParser.parse b t = Except.ok r2) :
    r1 = r2 ∧ r1.title = r2.title ∧ r1.metadata = r2.metadata ∧
      r1.steps = r2.steps ∧ r1.sections = r2.sections ∧ r1.settings = r2.settings := by
  rw [h1] at h2
  injection h2 with h
  subst h
  exact ⟨rfl, rfl, rfl, rfl, rfl, rfl⟩

/-- C9 witness: parsing `"Mix."` twice yields the same concrete recipe. -/
theorem C9_witness :
    CooklangParser.parse true "Mix." =
      Except.ok { title := none, metadata := [],
                  steps := [{ tokens := [Token.textTok "Mix." 0 4], secRef := none }],
                  sections := [], settings := { ignore_section_depth := true } } ∧
    ({ title := none, metadata := [],
       steps := [{ tokens := [Token.textTok "Mix." 0 4], secRef := none }],
       sections := [], settings := { ignore_section_depth := true } } : Recipe) =
      { title := none, metadata := [],
        steps := [{ tokens := [Token.textTok "Mix." 0 4], secRef := none }],
        sections := [], settings := { ignore_section_depth := true } } :=
  ⟨by rfl, (C9_deterministic true "Mix." _ _ (by rfl) (by rfl)).1⟩

lemma dedupAux_sublist {α κ : Type} [DecidableEq κ] (key : α → κ) :
    ∀ (l : List α) (seen : List κ), (dedupAux key seen l).Sublist l := by
  intro l
  induction l with
  | nil => intro seen; simp [dedupAux]
  | cons x xs ih =>
      intro seen
      rw [dedupAux]
      split
      · exact (ih seen).cons x
      · exact (ih (key x :: seen)).cons₂ x

lemma dedupAux_notSeen {α κ : Type} [DecidableEq κ] (key : α → κ) :
    ∀ (l : List α) (seen : List κ) (y : α),
      y ∈ dedupAux key seen l → key y ∉ seen := by
  intro l
  induction l with
  | nil => intro seen y hy; simp [dedupAux] at hy
  | cons x xs ih =>
      intro seen y hy
      rw [dedupAux] at hy
      split at hy
      · exact ih seen y hy
      · rcases List.mem_cons.mp hy with h | h
        · subst h; assumption
        · have := ih (key x :: seen) y h
          exact fun hc => this (List.mem_cons_of_mem _ hc)

lemma dedupAux_pairwise {α κ : Type} [DecidableEq κ] (key : α → κ) :
    ∀ (l : List α) (seen : List κ),
      List.Pairwise (fun a b => key a ≠ key b) (dedupAux key seen l) := by
  intro l
  induction l with
  | nil => intro seen; simp [dedupAux]
  | cons x xs ih =>
      intro seen
      rw [dedupAux]
      split
      · exact ih seen
      · refine List.Pairwise.cons ?_ (ih (key x :: seen))
        intro y hy
        have := dedupAux_notSeen key xs (key x :: seen) y hy
        exact fun hc => this (hc ▸ List.mem_cons_self _ _)

lemma dedupAux_cover {α κ : Type} [DecidableEq κ] (key : α → κ) :
    ∀ (l : List α) (seen : List κ) (x : α), x ∈ l →
      key x ∈ seen ∨ ∃ y ∈ dedupAux key seen l, key y = key x := by
  intro l
  induction l with
  | nil => intro seen x hx; simp at hx
  | cons a xs ih =>
      intro seen x hx
      rw [dedupAux]
      rcases List.mem_cons.mp hx with h | h
      · subst h
        split
        · exact Or.inl (by assumption)
        · exact Or.inr ⟨x, List.mem_cons_self _ _, rfl⟩
      · split
        · exact ih seen x h
        · rcases ih (key a :: seen) x h with hseen | ⟨y, hy, hk⟩
          · rcases List.mem_cons.mp hseen with he | hs
            · exact Or.inr ⟨a, List.mem_cons_self _ _, he.symm⟩
            · exact Or.inl hs
          · exact Or.inr ⟨y, List.mem_cons_of_mem _ hy, hk⟩

lemma dedupAux_firstOcc {α κ : Type} [DecidableEq κ] (key : α → κ) :
    ∀ (l : List α) (seen : List κ) (y : α), y ∈ dedupAux key seen l →
      ∃ pre post, l = pre ++ y :: post ∧
        ∀ z ∈ pre, key z = key y → key z ∈ seen := by
  intro l
  induction l with
  | nil => intro seen y hy; simp [dedupAux] at hy
  | cons a xs ih =>
      intro seen y hy
      rw [dedupAux] at hy
      split at hy
      next hka =>
        obtain ⟨pre, post, heq, hpre⟩ := ih seen y hy
        exact ⟨a :: pre, post, by rw [heq]; rfl, fun z hz hkz => by
          rcases List.mem_cons.mp hz with h | h
          · subst h; exact hka
          · exact hpre z h hkz⟩
      next hka =>
        rcases List.mem_cons.mp hy with h | h
        · subst h
          exact ⟨[], xs, rfl, by simp⟩
        · obtain ⟨pre, post, heq, hpre⟩ := ih (key a :: seen) y h
          have hky : key y ∉ key a :: seen := dedupAux_notSeen key xs _ y h
          refine ⟨a :: pre, post, by rw [heq]; rfl, fun z hz hkz => ?_⟩
          rcases List.mem_cons.mp hz with h2 | h2
          · subst h2
            exact absurd hkz (fun he => hky (he ▸ List.mem_cons_self _ _))
          · have h4 := hpre z h2 hkz
            rcases List.mem_cons.mp h4 with h3 | h3
            · rw [hkz] at h3
              exact absurd h3 (fun he => hky (he ▸ List.mem_cons_self _ _))
            · exact h3

/-- C7: `Recipe.ingredients`, `Recipe.cookware` and `Recipe.timers`
flatten the per-step payload lists in step order then token order and
deduplicate with first occurrence winning and order preserved, using the
identity `(name, unit, preparation, quantity)` for ingredients, the name
only for cookware, and `(name, duration, unit)` for timers: each result is
a sublist of the flattened list (order preserved), has pairwise distinct
keys, covers every key of the flattened list, and each kept element is the
first element of the flattened list with its key; given ingredients A, B,
A across two steps, the recipe's ingredients are [A, B]. -/
theorem C7_dedup (r : Recipe) :
    (let flatI := (r.steps.map Step.ingredients).flatten
     r.ingredients.Sublist flatI ∧
       List.Pairwise (fun a b => ingredientKey a ≠ ingredientKey b) r.ingredients ∧
       (∀ x ∈ flatI, ∃ y ∈ r.ingredients, ingredientKey y = ingredientKey x) ∧
       (∀ y ∈ r.ingredients, ∃ pre post, flatI = pre ++ y :: post ∧
          ∀ z ∈ pre, ingredientKey z ≠ ingredientKey y)) ∧
    (let flatC := (r.steps.map Step.cookware).flatten
     r.cookware.Sublist flatC ∧
       List.Pairwise (fun a b => Cookware.name a ≠ Cookware.name b) r.cookware ∧
       (∀ x ∈ flatC, ∃ y ∈ r.cookware, Cookware.name y = Cookware.name x) ∧
       (∀ y ∈ r.cookware, ∃ pre post, flatC = pre ++ y :: post ∧
          ∀ z ∈ pre, Cookware.name z ≠ Cookware.name y)) ∧
    (let flatT := (r.steps.map Step.timers).flatten
     r.timers.Sublist flatT ∧
       List.Pairwise (fun a b => timerKey a ≠ timerKey b) r.timers ∧
       (∀ x ∈ flatT, ∃ y ∈ r.timers, timerKey y = timerKey x) ∧
       (∀ y ∈ r.timers, ∃ pre post, flatT = pre ++ y :: post ∧
          ∀ z ∈ pre, timerKey z ≠ timerKey y)) ∧
    Recipe.ingredients
        { steps := [{ tokens := [Token.ingredientTok "@A" 0 2 { name := "A" },
                                 Token.ingredientTok "@B" 3 5 { name := "B" }],
                      secRef := none },
                    { tokens := [Token.ingredientTok "@A" 0 2 { name := "A" }],
                      secRef := none }] } =
      [{ name := "A" }, { name := "B" }] := by
  have gen : ∀ {α κ : Type} [DecidableEq κ] (key : α → κ) (l : List α),
      (dedupAux key [] l).Sublist l ∧
        List.Pairwise (fun a b => key a ≠ key b) (dedupAux key [] l) ∧
        (∀ x ∈ l, ∃ y ∈ dedupAux key [] l, key y = key x) ∧
        (∀ y ∈ dedupAux key [] l, ∃ pre post, l = pre ++ y :: post ∧
           ∀ z ∈ pre, key z ≠ key y) := by
    intro α κ _ key l
    refine ⟨dedupAux_sublist key l [], dedupAux_pairwise key l [], ?_, ?_⟩
    · intro x hx
      rcases dedupAux_cover key l [] x hx with h | h
      · simp at h
      · exact h
    · intro y hy
      obtain ⟨pre, post, heq, hpre⟩ := dedupAux_firstOcc key l [] y hy
      exact ⟨pre, post, heq, fun z hz hk => by simpa using hpre z hz hk⟩
  refine ⟨?_, ?_, ?_, by rfl⟩
  · exact gen ingredientKey ((r.steps.map Step.ingredients).flatten)
  · exact gen Cookware.name ((r.steps.map Step.cookware).flatten)
  · exact gen timerKey ((r.steps.map Step.timers).flatten)

/-- C7 witness: concrete dedup facts obtained from the theorem on the
A, B, A recipe. -/
theorem C7_witness :
    Recipe.ingredients
        { steps := [{ tokens := [Token.ingredientTok "@A" 0 2 { name := "A" },
                                 Token.ingredientTok "@B" 3 5 { name := "B" }],
                      secRef := none },
                    { tokens := [Token.ingredientTok "@A" 0 2 { name := "A" }],
                      secRef := none }] } =
      [{ name := "A" }, { name := "B" }] :=
  (C7_dedup { steps := [] }).2.2.2

/-- C5 counterexample: a well-formed front-matter block whose body parses
to a truthy non-mapping YAML value (here the bare scalar `hello`) is NOT
treated as "no metadata": `_parse_metadata` consumes the block and stores
the scalar, and `parse` then raises `AttributeError` on
`recipe.metadata.get("title")` (a string has no `.get`), so parsing does
not continue and nothing is returned. -/
theorem C5_counterexample :
    _parse_metadata "---\nhello\n---\n\nBoil water." =
      ("Boil water.", Yaml.str "hello") ∧
    CooklangParser.parse true "---\nhello\n---\n\nBoil water." =
      Except.error PyErr.attributeError :=
  ⟨by rfl, by rfl⟩

/-- C5 amended: when no closing `---` delimiter exists, or when the
enclosed block raises a YAML parse error, metadata extraction returns the
original text unchanged together with an empty mapping, the failure is
silent, and parsing continues on the full original text producing a recipe
with empty metadata and no title. -/
theorem C5_amended (text : String) (b : Bool)
    (h : frontMatterNoClosing text = true ∨ frontMatterYamlError text = true) :
    _parse_metadata text = (text, Yaml.dict []) ∧
    ∃ rec, CooklangParser.parse b text = Except.ok rec ∧
      rec.metadata = [] ∧ rec.title = none := by
  have hmeta : _parse_metadata text = (text, Yaml.dict []) := by
    rcases h with h | h
    · rw [frontMatterNoClosing] at h
      rw [_parse_metadata]
      cases hlines : (pySplit text "\n").dropWhile (fun l => pyStrip l = "") with
      | nil => rw [hlines] at h
      | cons l0 rest =>
          rw [hlines] at h
          simp only [Bool.and_eq_true, beq_iff_eq, List.all_eq_true, bne_iff_ne,
            ne_eq] at h
          obtain ⟨hl0, hall⟩ := h
          dsimp only
          rw [if_pos hl0]
          have hidx : rest.findIdx? (fun l => pyStrip l = "---") = none := by
            refine List.findIdx?_eq_none_iff.mpr ?_
            intro x hx
            simpa using hall x hx
          rw [hidx]
    · rw [frontMatterYamlError] at h
      rw [_parse_metadata]
      cases hlines : (pySplit text "\n").dropWhile (fun l => pyStrip l = "") with
      | nil => rw [hlines] at h
      | cons l0 rest =>
          rw [hlines] at h
          simp only [Bool.and_eq_true, beq_iff_eq] at h
          obtain ⟨hl0, h2⟩ := h
          dsimp only
          rw [if_pos hl0]
          cases hidx : rest.findIdx? (fun l => pyStrip l = "---") with
          | none => rfl
          | some j =>
              dsimp only
              rw [hidx] at h2
              dsimp only at h2
              cases hsl : safe_load (String.intercalate "\n" (rest.take j)) with
              | error e => rfl
              | ok v =>
                  rw [hsl] at h2
                  simp at h2
  refine ⟨hmeta, ?_⟩
  rw [CooklangParser.parse]
  simp only [hmeta]
  exact ⟨_, rfl, rfl, rfl⟩

/-- C5 witness: a block with no closing delimiter, and a block raising a
YAML error, both leave the text unchanged with an empty mapping. -/
theorem C5_witness :
    frontMatterNoClosing "---\ntitle: x\nno closing" = true ∧
    _parse_metadata "---\ntitle: x\nno closing" =
      ("---\ntitle: x\nno closing", Yaml.dict []) ∧
    frontMatterYamlError "---\na: b: c\n---\nBody" = true ∧
    _parse_metadata "---\na: b: c\n---\nBody" =
      ("---\na: b: c\n---\nBody", Yaml.dict []) :=
  ⟨by decide,
   (C5_amended "---\ntitle: x\nno closing" true (Or.inl (by decide))).1,
   by decide,
   (C5_amended "---\na: b: c\n---\nBody" true (Or.inr (by decide))).1⟩

/-- C4 counterexample: a recipe with one section and no steps is not
handled identically by the renderers: `to_markdown` emits no section
heading at all (its trailing flush sits inside the `if self.steps:`
block), while `to_html` and `to_latex` emit the section. -/
theorem C4_counterexample :
    Recipe.to_markdown { sections := [{ title := "A", level := 1 }] } true true true =
      "## Instructions" ∧
    Recipe.to_html { sections := [{ title := "A", level := 1 }] } none =
      "<h2>Instructions</h2>\n<h3>A</h3>" ∧
    Recipe.to_latex { sections := [{ title := "A", level := 1 }] } =
      some "\n\\begin\x7brecipe\x7d\x7bRecipe\x7d\x7b\x7d\n\n\\section\x7bA\x7d\n\\end\x7brecipe\x7d\n\\cleardoublepage\n\n" :=
  ⟨by rfl, by rfl, by rfl⟩

/-- C4 amended: the Markdown, HTML and LaTeX renderers advance through the
flat section list with the same while-loop state (the final next-section
index after the steps loop agrees across the three renderers, so the
trailing flush emits the same remaining sections — including sections with
zero attached steps), and on the spec's example input with headers
`= A =`, `== B ==` and one step under B, all three renderers emit both
headers in order.  They differ only for a recipe with sections but no
steps, where Markdown skips the trailing flush (see the counterexample). -/
theorem C4_amended :
    (∀ (sections : List Section) (settings : RecipeSettings) (steps : List Step)
       (cur : Option Section) (idx : Nat),
       (mdStepsLoop sections settings steps cur idx).2 =
         (htmlStepsLoop sections settings steps cur idx).2 ∧
       (∀ lp, latexStepsLoop sections settings steps cur idx = some lp →
          lp.2 = (mdStepsLoop sections settings steps cur idx).2)) ∧
    (∃ r, CooklangParser.parse true "= A =\n\n== B ==\n\nMix the batter." = Except.ok r ∧
       Recipe.to_markdown r true true true =
         "## Instructions\n\n### A\n\n### B\n\nMix the batter." ∧
       Recipe.to_html r none =
         "<h2>Instructions</h2>\n<h3>A</h3>\n<h3>B</h3>\n<p>Mix the batter.</p>" ∧
       Recipe.to_latex r =
         some "\n\\begin\x7brecipe\x7d\x7bRecipe\x7d\x7b\x7d\n\n\\section\x7bA\x7d\n\\section\x7bB\x7d\nMix the batter.\n\n\\end\x7brecipe\x7d\n\\cleardoublepage\n\n") := by
  constructor
  · intro sections settings steps
    induction steps with
    | nil =>
        intro cur idx
        refine ⟨rfl, ?_⟩
        intro lp hlp
        rw [latexStepsLoop] at hlp
        injection hlp with h
        rw [← h]
        rfl
    | cons st rest ih =>
        intro cur idx
        constructor
        · rw [mdStepsLoop, htmlStepsLoop]
          exact (ih _ _).1
        · intro lp hlp
          rw [latexStepsLoop] at hlp
          rw [mdStepsLoop]
          cases hmm : (stepAdvance sections cur idx st).1.mapM (latexSectionHeader settings) with
          | none => rw [hmm] at hlp; exact absurd hlp (by simp)
          | some headers =>
              rw [hmm] at hlp
              cases hrec : latexStepsLoop sections settings rest
                  (stepAdvance sections cur idx st).2.1
                  (stepAdvance sections cur idx st).2.2 with
              | none => rw [hrec] at hlp; exact absurd hlp (by simp)
              | some r2 =>
                  rw [hrec] at hlp
                  injection hlp with h
                  rw [← h]
                  exact (ih _ _).2 r2 hrec
  · exact ⟨_, rfl, by rfl, by rfl, by rfl⟩

/-- C4 witness: the walk-state agreement of the amended theorem applied to
a concrete one-section recipe with one step under that section. -/
theorem C4_witness :
    (mdStepsLoop [{ title := "A", level := 1 }] { ignore_section_depth := true }
        [{ tokens := [], secRef := some { title := "A", level := 1 } }] none 0).2 =
      (htmlStepsLoop [{ title := "A", level := 1 }] { ignore_section_depth := true }
        [{ tokens := [], secRef := some { title := "A", level := 1 } }] none 0).2 ∧
    ((["\\section\x7bA\x7d\n", "\n\n"], 1) : List String × Nat).2 =
      (mdStepsLoop [{ title := "A", level := 1 }] { ignore_section_depth := true }
        [{ tokens := [], secRef := some { title := "A", level := 1 } }] none 0).2 :=
  ⟨(C4_amended.1 _ _ _ none 0).1,
   (C4_amended.1 _ _ _ none 0).2 _ (by rfl)⟩

lemma all_eq_replicate (l : List Char) (h : l.all (fun c => c = '=') = true) :
    l = List.replicate l.length '=' := by
  induction l with
  | nil => rfl
  | cons c rest ih =>
      simp only [List.all_cons, Bool.and_eq_true, decide_eq_true_eq] at h
      rw [List.length_cons, List.replicate_succ, h.1]
      exact congrArg (List.cons '=') (ih h.2)

lemma dropWhile_append_of_all (p : Char → Bool) (a b : List Char)
    (h : a.all p = true) : (a ++ b).dropWhile p = b.dropWhile p := by
  induction a with
  | nil => rfl
  | cons c rest ih =>
      simp only [List.all_cons, Bool.and_eq_true] at h
      rw [List.cons_append, List.dropWhile_cons, if_pos h.1]
      exact ih h.2

lemma dropWhile_replicate_eq (m : Nat) :
    (List.replicate m '=').dropWhile isSpaceChar = List.replicate m '=' := by
  cases m with
  | zero => rfl
  | succ n =>
      rw [List.replicate_succ, List.dropWhile_cons, if_neg]
      decide

lemma drop_length_takeWhile (p : Char → Bool) (l : List Char) :
    l.drop (l.takeWhile p).length = l.dropWhile p := by
  induction l with
  | nil => rfl
  | cons c rest ih =>
      by_cases h : p c = true
      · rw [List.takeWhile_cons, List.dropWhile_cons, if_pos h, if_pos h,
          List.length_cons, List.drop_succ_cons]
        exact ih
      · rw [List.takeWhile_cons, List.dropWhile_cons, if_neg h, if_neg h,
          List.length_nil, List.drop_zero]

lemma all_takeWhile (p : Char → Bool) (l : List Char) :
    (l.takeWhile p).all p = true := by
  induction l with
  | nil => rfl
  | cons c rest ih =>
      rw [List.takeWhile_cons]
      by_cases h : p c = true
      · rw [if_pos h]; simp [List.all_cons, h, ih]
      · rw [if_neg h]; rfl

lemma head?_dropWhile (p : Char → Bool) (l : List Char) :
    ∀ c, (l.dropWhile p).head? = some c → p c = false := by
  induction l with
  | nil => intro c h; simp at h
  | cons x xs ih =>
      intro c h
      rw [List.dropWhile_cons] at h
      by_cases hx : p x = true
      · rw [if_pos hx] at h; exact ih c h
      · rw [if_neg hx] at h
        simp only [List.head?_cons, Option.some_inj] at h
        rw [← h]
        exact Bool.eq_false_iff.mpr hx

lemma getLast?_drop_mem (l : List Char) (n : Nat) (c : Char)
    (h : (l.drop n).getLast? = some c) : l.getLast? = some c := by
  obtain ⟨u, hu⟩ := List.drop_suffix n l
  rw [← hu]
  rw [List.getLast?_append, h]
  rfl

lemma stripped_getLast (p : String) (hs : pyStrip p = p) :
    ∀ c, p.data.getLast? = some c → isSpaceChar c = false := by
  intro c hc
  have hd : pyStripList p.data = p.data := congrArg String.data hs
  rw [pyStripList] at hd
  have hrev : p.data.reverse = (p.data.dropWhile isSpaceChar).reverse.dropWhile isSpaceChar := by
    conv_lhs => rw [← hd]
    rw [List.reverse_reverse]
  have hh : p.data.reverse.head? = some c := by
    rw [List.head?_reverse]; exact hc
  rw [hrev] at hh
  exact head?_dropWhile isSpaceChar _ c hh

lemma tailOkSec_ws_replicate (w2 : List Char) (m : Nat)
    (hw : w2.all isSpaceChar = true) :
    tailOkSec (w2 ++ List.replicate m '=') = true := by
  rw [tailOkSec, Bool.or_eq_true]
  left
  rw [dropWhile_append_of_all isSpaceChar w2 _ hw, dropWhile_replicate_eq]
  simp [List.all_eq_true, List.mem_replicate]

lemma findTitleLen_of_tailOk (s : List Char) (h : tailOkSec s = true) :
    findTitleLen s = some 0 := by
  cases s with
  | nil => rw [findTitleLen, if_pos h]
  | cons c rest => rw [findTitleLen, if_pos h]

lemma findTitleLen_sound (s : List Char) (L : Nat)
    (h : findTitleLen s = some L) :
    '\n' ∉ s.take L ∧ tailOkSec (s.drop L) = true := by
  induction s generalizing L with
  | nil =>
      rw [findTitleLen] at h
      by_cases ht : tailOkSec [] = true
      · rw [if_pos ht] at h
        cases h
        exact ⟨by simp, ht⟩
      · rw [if_neg ht] at h
        cases h
  | cons c rest ih =>
      rw [findTitleLen] at h
      by_cases ht : tailOkSec (c :: rest) = true
      · rw [if_pos ht] at h
        cases h
        exact ⟨by simp, ht⟩
      · rw [if_neg ht] at h
        by_cases hc : c = '\n'
        · rw [if_pos hc] at h
          cases h
        · rw [if_neg hc] at h
          rw [Option.map_eq_some'] at h
          obtain ⟨L', hL', rfl⟩ := h
          obtain ⟨h1, h2⟩ := ih L' hL'
          refine ⟨?_, ?_⟩
          · rw [List.take_succ_cons]
            intro hmem
            rcases List.mem_cons.mp hmem with h0 | h0
            · exact hc h0.symm
            · exact h1 h0
          · rw [List.drop_succ_cons]
            exact h2

lemma findTitleLen_complete (t w2 : List Char) (m : Nat)
    (hn : '\n' ∉ t) (hw : w2.all isSpaceChar = true) :
    (findTitleLen (t ++ (w2 ++ List.replicate m '='))).isSome = true := by
  induction t with
  | nil =>
      rw [List.nil_append, findTitleLen_of_tailOk _ (tailOkSec_ws_replicate w2 m hw)]
      rfl
  | cons c t' ih =>
      rw [List.cons_append, findTitleLen]
      by_cases ht : tailOkSec (c :: (t' ++ (w2 ++ List.replicate m '='))) = true
      · rw [if_pos ht]; rfl
      · rw [if_neg ht]
        rw [if_neg (fun h0 => hn (by rw [h0]; exact List.mem_cons_self '\n' t'))]
        rw [Option.isSome_map']
        exact ih (fun h0 => hn (List.mem_cons_of_mem c h0))

lemma findTitleLen_complete_drop (w1 t w2 : List Char) (m : Nat)
    (h1 : w1.all isSpaceChar = true) (hn : '\n' ∉ t)
    (hw : w2.all isSpaceChar = true) :
    (findTitleLen ((w1 ++ (t ++ (w2 ++ List.replicate m '='))).dropWhile
      isSpaceChar)).isSome = true := by
  rw [dropWhile_append_of_all isSpaceChar w1 _ h1]
  induction t with
  | nil =>
      rw [List.nil_append, dropWhile_append_of_all isSpaceChar w2 _ hw,
        dropWhile_replicate_eq, findTitleLen_of_tailOk _ ?_]
      · rfl
      · have := tailOkSec_ws_replicate [] m (by rfl)
        rwa [List.nil_append] at this
  | cons c t' ih =>
      rw [List.cons_append, List.dropWhile_cons]
      by_cases hc : isSpaceChar c = true
      · rw [if_pos hc]
        exact ih (fun h0 => hn (List.mem_cons_of_mem c h0))
      · rw [if_neg hc]
        have := findTitleLen_complete (c :: t') w2 m hn hw
        rw [List.cons_append] at this
        exact this

lemma getLast?_of_suffix (l₁ l₂ : List Char) (h : l₁ <:+ l₂) (c : Char)
    (hc : l₁.getLast? = some c) : l₂.getLast? = some c := by
  obtain ⟨u, hu⟩ := h
  rw [← hu, List.getLast?_append, hc]
  rfl

lemma tailOkSec_first_of_last (d : List Char)
    (hlast : ∀ c, d.getLast? = some c → isSpaceChar c = false)
    (h : tailOkSec d = true) :
    (d.dropWhile isSpaceChar).all (fun c => c = '=') = true := by
  rw [tailOkSec, Bool.or_eq_true] at h
  rcases h with h | h
  · exact h
  · exfalso
    split at h
    · next hg =>
        have := hlast '\n' hg
        simp [isSpaceChar] at this
    · exact absurd h (by decide)

lemma tailOkSec_decomp (d : List Char)
    (h : (d.dropWhile isSpaceChar).all (fun c => c = '=') = true) :
    ∃ w2 m, d = w2 ++ List.replicate m '=' ∧ w2.all isSpaceChar = true := by
  refine ⟨d.takeWhile isSpaceChar, (d.dropWhile isSpaceChar).length, ?_,
    all_takeWhile isSpaceChar d⟩
  rw [← all_eq_replicate _ h]
  exact (List.takeWhile_append_dropWhile isSpaceChar d).symm

lemma sectionMatch_spec (p : String) :
    sectionMatch p =
      (if (p.data.takeWhile (fun c => c = '=')).length = 0 then none
       else
         match findTitleLen ((p.data.drop
             (p.data.takeWhile (fun c => c = '=')).length).drop
             (((p.data.drop (p.data.takeWhile (fun c => c = '=')).length).takeWhile
               isSpaceChar).length)) with
         | some L => some ((p.data.takeWhile (fun c => c = '=')).length,
             pyStrip (String.mk (((p.data.drop
               (p.data.takeWhile (fun c => c = '=')).length).drop
               (((p.data.drop (p.data.takeWhile
                 (fun c => c = '=')).length).takeWhile
                   isSpaceChar).length)).take L)))
         | none => none) := rfl

lemma heading_of_sectionMatch (p : String) (hs : pyStrip p = p) (k : Nat) (t : String)
    (h : sectionMatch p = some (k, t)) :
    headingDecomp p ∧ k = (p.data.takeWhile (fun c => c = '=')).length := by
  rw [sectionMatch_spec,
    drop_length_takeWhile isSpaceChar
      (p.data.drop (p.data.takeWhile (fun c => c = '=')).length)] at h
  by_cases hk : (p.data.takeWhile (fun c => c = '=')).length = 0
  · rw [if_pos hk] at h; cases h
  · rw [if_neg hk] at h
    cases hfl : findTitleLen ((p.data.drop
        (p.data.takeWhile (fun c => c = '=')).length).dropWhile isSpaceChar) with
    | none => rw [hfl] at h; cases h
    | some L =>
        rw [hfl] at h
        have hkk : k = (p.data.takeWhile (fun c => c = '=')).length := by
          cases h; rfl
        refine ⟨?_, hkk⟩
        obtain ⟨hnl, htail⟩ := findTitleLen_sound _ L hfl
        have hlast : ∀ c, (((p.data.drop
            (p.data.takeWhile (fun c => c = '=')).length).dropWhile
              isSpaceChar).drop L).getLast? = some c → isSpaceChar c = false := by
          intro c hc
          have h1 : ((p.data.drop
              (p.data.takeWhile (fun c => c = '=')).length).dropWhile
                isSpaceChar).getLast? = some c :=
            getLast?_of_suffix _ _ (List.drop_suffix L _) c hc
          have h2 : (p.data.drop
              (p.data.takeWhile (fun c => c = '=')).length).getLast? = some c :=
            getLast?_of_suffix _ _ (List.dropWhile_suffix isSpaceChar) c h1
          have h3 : p.data.getLast? = some c :=
            getLast?_of_suffix _ _ (List.drop_suffix _ _) c h2
          exact stripped_getLast p hs c h3
        have hfirst := tailOkSec_first_of_last _ hlast htail
        obtain ⟨w2, m, hdec, hw2⟩ := tailOkSec_decomp _ hfirst
        refine ⟨Nat.pos_of_ne_zero hk,
          ((p.data.drop (p.data.takeWhile
            (fun c => c = '=')).length).takeWhile isSpaceChar),
          (((p.data.drop (p.data.takeWhile (fun c => c = '=')).length).dropWhile
            isSpaceChar).take L), w2, m, ?_, all_takeWhile isSpaceChar _, hw2, hnl⟩
        have hsplit : p.data.drop (p.data.takeWhile (fun c => c = '=')).length =
            (p.data.drop (p.data.takeWhile
              (fun c => c = '=')).length).takeWhile isSpaceChar ++
              ((((p.data.drop (p.data.takeWhile
                (fun c => c = '=')).length).dropWhile isSpaceChar).take L) ++
                (w2 ++ List.replicate m '=')) := by
          rw [← hdec, List.take_append_drop]
          exact (List.takeWhile_append_dropWhile isSpaceChar _).symm
        conv_lhs => rw [hsplit]
        simp only [List.append_assoc]

lemma sectionMatch_isSome_of_heading (p : String) (h : headingDecomp p) :
    (sectionMatch p).isSome = true := by
  obtain ⟨hk, w1, t, w2, m, hdec, hw1, hw2, hn⟩ := h
  rw [sectionMatch_spec, if_neg (Nat.pos_iff_ne_zero.mp hk),
    drop_length_takeWhile isSpaceChar
      (p.data.drop (p.data.takeWhile (fun c => c = '=')).length)]
  have hfl := findTitleLen_complete_drop w1 t w2 m hw1 hn hw2
  rw [← List.append_assoc, ← List.append_assoc, ← hdec] at hfl
  cases hflc : findTitleLen ((p.data.drop
      (p.data.takeWhile (fun c => c = '=')).length).dropWhile isSpaceChar) with
  | none => rw [hflc] at hfl; exact absurd hfl (by decide)
  | some L => rfl

/-- C6: A stripped non-empty paragraph is recognized as a Section iff the
WHOLE paragraph (not merely its first line: `section_pattern` is compiled
without `re.MULTILINE`, parser.py line 1117) decomposes as one or more
leading `=` markers, optional whitespace, a newline-free title, optional
whitespace and zero or more trailing `=` markers; the Section's level is
the count of leading markers (trailing markers not counted), a matching
paragraph only appends a Section (steps unchanged) and becomes the current
section, and a non-matching paragraph becomes a Step instead. -/
theorem C6_amended (p : String) (st : ParserState)
    (hs : pyStrip p = p) (hne : p ≠ "") :
    ((sectionMatch p).isSome = true ↔ headingDecomp p) ∧
    (∀ k t, sectionMatch p = some (k, t) →
        k = (p.data.takeWhile (fun c => c = '=')).length ∧
        processParagraph st p =
          { st with sections := st.sections ++ [{ title := t, level := k }],
                    current_section := some { title := t, level := k } }) ∧
    (sectionMatch p = none →
        processParagraph st p =
          { st with steps :=
              st.steps ++ [{ _parse_step p with secRef := st.current_section }] }) := by
  refine ⟨⟨?_, ?_⟩, ?_, ?_⟩
  · intro hsome
    obtain ⟨⟨k, t⟩, hkt⟩ := Option.isSome_iff_exists.mp hsome
    exact (heading_of_sectionMatch p hs k t hkt).1
  · exact sectionMatch_isSome_of_heading p
  · intro k t hkt
    refine ⟨(heading_of_sectionMatch p hs k t hkt).2, ?_⟩
    simp only [processParagraph, hs, hkt, if_neg hne]
  · intro hnone
    simp only [processParagraph, hs, hnone, if_neg hne]

/-- C6 counterexample: the first line `= A =` of the paragraph matches the
heading shape on its own, but the two-line paragraph `= A =\nMix well` is
parsed as one plain Step with no Section: recognition tests the whole
paragraph, not its first line. -/
theorem C6_counterexample :
    sectionMatch "= A =" = some (1, "A") ∧
    ∃ r, CooklangParser.parse true "= A =\nMix well" = .ok r ∧
      r.sections = [] ∧ r.steps.length = 1 ∧
      r.steps.map Step.secRef = [none] := by
  exact ⟨by rfl, ⟨_, by rfl, by rfl, by rfl, by rfl⟩⟩

/-- C6 witness: the amended theorem applied to the concrete stripped
paragraph `== Prep ==`, giving level 2 and the Section-only state update. -/
theorem C6_witness :
    processParagraph {} "== Prep ==" =
      { ({} : ParserState) with
          sections := ({} : ParserState).sections ++ [{ title := "Prep", level := 2 }],
          current_section := some { title := "Prep", level := 2 } } ∧
    ((sectionMatch "== Prep ==").isSome = true ↔ headingDecomp "== Prep ==") :=
  ⟨((C6_amended "== Prep ==" {} (by rfl) (by decide)).2.1 2 "Prep" (by rfl)).2,
   (C6_amended "== Prep ==" {} (by rfl) (by decide)).1⟩
